import Mathlib

/-!
# Swedish personal identity numbers (`osm/pin`)

A shallow embedding of `pin.go` and the properties of its checksum, validation,
sex predicates and generators.

Conventions of the embedding.

* A Go `string` is its sequence of bytes, `GoString = List Nat` (a byte is a
  number below 256; no definition below relies on that bound, so every theorem
  quantified over `GoString` covers in particular every Go string).
* A Go `int` is an `Int`; `%` is Go's truncated remainder `Int.tmod`.  No value
  computed by the package comes near the 64-bit limits (the running checksum is
  at most nine times the length of its input).
* A function that can stop with a run-time panic (slice or index out of range,
  `Intn` of a non-positive bound) returns an `Option`: `none` is the panic.
* An `error` is an `Option GoString`: `none` is `nil`, `some m` an error whose
  message is `m`.
* The random sources are explicit arguments: a raw sample from which `Intn` /
  `Int63n` derive their result.  The clock and the local time zone are explicit
  arguments of `rndDate`.
-/

namespace Pin

/-! ## Go strings -/

/-- A Go string: its bytes. -/
abbrev GoString := List Nat

/-- A Go error value: `none` is `nil`, `some m` carries the message `m`. -/
abbrev GoError := Option GoString

/-- UTF-8 encoding of a rune (`utf8.AppendRune`, which `string(r)` applies):
surrogates and values above U+10FFFF are encoded as U+FFFD. -/
def encodeRune (r : Nat) : GoString :=
  if r < 0x80 then [r]
  else if r < 0x800 then [0xC0 + r / 64, 0x80 + r % 64]
  else if (0xD800 ≤ r ∧ r ≤ 0xDFFF) ∨ 0x10FFFF < r then [0xEF, 0xBF, 0xBD]
  else if r < 0x10000 then [0xE0 + r / 4096, 0x80 + r / 64 % 64, 0x80 + r % 64]
  else [0xF0 + r / 262144, 0x80 + r / 4096 % 64, 0x80 + r / 64 % 64, 0x80 + r % 64]

/-- The bytes of a string literal of the source. -/
def lit (s : String) : GoString :=
  s.data.foldr (fun c acc => encodeRune c.toNat ++ acc) []

/-- The rune U+FFFD that decoding yields for an invalid byte sequence. -/
def RuneError : Nat := 0xFFFD

/-- A continuation byte within the bounds `lo..hi`. -/
def inRange (lo hi b : Nat) : Bool := decide (lo ≤ b) && decide (b ≤ hi)

/-- Decoding of the first rune of a non-empty string (`utf8.DecodeRuneInString`,
which a `range` loop over a string applies): the rune and its width in bytes.
An invalid or truncated sequence yields `RuneError` with width 1. -/
def decodeRune : GoString → Nat × Nat
  | [] => (RuneError, 0)
  | b0 :: rest =>
    if b0 < 0x80 then (b0, 1)
    else if b0 < 0xC2 then (RuneError, 1)
    else if b0 < 0xE0 then
      match rest with
      | b1 :: _ =>
        if inRange 0x80 0xBF b1 then ((b0 % 32) * 64 + b1 % 64, 2) else (RuneError, 1)
      | _ => (RuneError, 1)
    else if b0 < 0xF0 then
      let lo := if b0 = 0xE0 then 0xA0 else 0x80
      let hi := if b0 = 0xED then 0x9F else 0xBF
      match rest with
      | b1 :: b2 :: _ =>
        if inRange lo hi b1 && inRange 0x80 0xBF b2 then
          ((b0 % 16) * 4096 + (b1 % 64) * 64 + b2 % 64, 3)
        else (RuneError, 1)
      | _ => (RuneError, 1)
    else if b0 < 0xF5 then
      let lo := if b0 = 0xF0 then 0x90 else 0x80
      let hi := if b0 = 0xF4 then 0x8F else 0xBF
      match rest with
      | b1 :: b2 :: b3 :: _ =>
        if inRange lo hi b1 && inRange 0x80 0xBF b2 && inRange 0x80 0xBF b3 then
          ((b0 % 8) * 262144 + (b1 % 64) * 4096 + (b2 % 64) * 64 + b3 % 64, 4)
        else (RuneError, 1)
      | _ => (RuneError, 1)
    else (RuneError, 1)

/-- The iterations of `for i, c := range s`, walking the bytes of `s`: `i` is the
byte index reached and `skip` the number of bytes still belonging to the rune
decoded last. -/
def rangeFrom : GoString → Nat → Nat → List (Nat × Nat)
  | [], _, _ => []
  | b :: rest, i, 0 =>
    (i, (decodeRune (b :: rest)).1) :: rangeFrom rest (i + 1) ((decodeRune (b :: rest)).2 - 1)
  | _ :: rest, i, k + 1 => rangeFrom rest (i + 1) k

/-- The pairs (byte index, rune) that `for i, c := range s` goes through. -/
def rangeString (s : GoString) : List (Nat × Nat) := rangeFrom s 0 0

/-- Go's `s[i:]`; panics when `i` exceeds the length. -/
def sliceFrom (s : GoString) (i : Nat) : Option GoString :=
  if i ≤ s.length then some (s.drop i) else none

/-- Go's `s[:j]`; panics when `j` exceeds the length. -/
def sliceTo (s : GoString) (j : Nat) : Option GoString :=
  if j ≤ s.length then some (s.take j) else none

/-- Go's `s[i]` for an `int` index; panics outside `0 ≤ i < len(s)`. -/
def index (s : GoString) (i : Int) : Option Nat :=
  if 0 ≤ i then s.get? i.toNat else none

/-! ## `strconv` -/

/-- An ASCII decimal digit. -/
def isDigit (b : Nat) : Bool := decide (48 ≤ b) && decide (b ≤ 57)

/-- The decimal digits of a natural number as bytes, most significant first. -/
def decimal (n : Nat) : GoString := (Nat.toDigits 10 n).map Char.toNat

/-- Go's `strconv.Itoa`. -/
def Itoa (i : Int) : GoString :=
  if i < 0 then 45 :: decimal (-i).toNat else decimal i.toNat

/-- The value of a string of decimal digits. -/
def digitsValue (ds : GoString) : Nat := ds.foldl (fun acc b => acc * 10 + (b - 48)) 0

/-- Go's `strconv.Atoi`: the value and whether parsing succeeded (`err == nil`).
A syntax error yields 0; a value out of the 64-bit range yields the nearest
bound, with an error. -/
def Atoi (s : GoString) : Int × Bool :=
  let neg := s.head? = some 45
  let ds := if s.head? = some 45 ∨ s.head? = some 43 then s.tail else s
  if ds = [] ∨ ds.all isDigit = false then (0, false)
  else if neg then
    if 2 ^ 63 < digitsValue ds then (-(2 ^ 63), false) else (-(digitsValue ds : Int), true)
  else
    if 2 ^ 63 ≤ digitsValue ds then (2 ^ 63 - 1, false) else ((digitsValue ds : Int), true)

/-! ## `regexp` -/

/-- One piece of an anchored pattern: a character class given by inclusive byte
ranges, repeated exactly `count` times. -/
structure Piece where
  ranges : List (Nat × Nat)
  count : Nat

/-- Whether the class of the piece contains the byte. -/
def Piece.accepts (p : Piece) (b : Nat) : Bool :=
  p.ranges.any fun r => decide (r.1 ≤ b) && decide (b ≤ r.2)

/-- Matching of `^p₁p₂…$` against the whole text.  The classes used here contain
ASCII characters only, and a byte of a multi-byte or invalid UTF-8 sequence is
never ASCII, so matching byte by byte agrees with matching rune by rune. -/
def Match : List Piece → GoString → Bool
  | [], s => s.isEmpty
  | p :: ps, s =>
    decide ((s.take p.count).length = p.count) && (s.take p.count).all p.accepts
      && Match ps (s.drop p.count)

/-- The class `[0-9]`. -/
def digitClass : List (Nat × Nat) := [(48, 57)]

/-- The class `[-+]`. -/
def signClass : List (Nat × Nat) := [(45, 45), (43, 43)]

/-- The pattern `^[0-9]{8}$`. -/
def validDate : List Piece := [⟨digitClass, 8⟩]

/-- The pattern `^[0-9]{8}[-+][0-9]{4}$`. -/
def validPIN : List Piece := [⟨digitClass, 8⟩, ⟨signClass, 1⟩, ⟨digitClass, 4⟩]

/-! ## The package -/

/-- One iteration of the loop of `getControlNumber`: `i` is the byte index and `c`
the rune of the iteration. -/
def controlStep (sum : Int) (ic : Nat × Nat) : Int :=
  let n := (Atoi (encodeRune ic.2)).1
  let t := if (ic.1 : Int).tmod 2 = 0 then n * 2 else n * 1
  if t ≥ 10 then sum + 1 + (t - 10) else sum + t

/-- The running sum of `getControlNumber` after its loop. -/
def controlSum (s : GoString) : Int := (rangeString s).foldl controlStep 0

/-- The function `getControlNumber`: the control number of a personal identity
number, as a byte. -/
def getControlNumber (s : GoString) : Option Nat :=
  index (Itoa ((10 - (controlSum s).tmod 10).tmod 10)) 0

/-- The message of the error that `IsValid`, `IsMale` and `IsFemale` return for a
personal identity number that is not valid. -/
def notValidMsg (pin : GoString) : GoString :=
  pin ++ lit " is not a valid personal identity number"

/-- The function `IsValid`. -/
def IsValid (pin : GoString) : Option (Bool × GoError) :=
  if Match validPIN pin = false then some (false, some (notValidMsg pin))
  else
    (sliceFrom pin 2).bind fun c0 =>
    (sliceTo c0 6).bind fun c6 =>
    (sliceFrom c0 7).bind fun c7 =>
    (sliceTo (c6 ++ c7) 9).bind fun c9 =>
    (getControlNumber c9).bind fun cn =>
    (index (c6 ++ c7) 9).bind fun last =>
    if cn ≠ last then some (false, some (notValidMsg pin))
    else some (true, none)

/-- The function `IsMale`. -/
def IsMale (pin : GoString) : Option (Bool × GoError) :=
  (IsValid pin).bind fun v =>
  if v.2 ≠ none then some (false, some (notValidMsg pin))
  else
    (index pin ((pin.length : Int) - 2)).bind fun c =>
    let n := (Atoi (encodeRune c)).1
    if n.tmod 2 = 0 then
      some (false, some (pin ++ lit " is not a valid male personal identity number"))
    else some (true, none)

/-- The function `IsFemale`. -/
def IsFemale (pin : GoString) : Option (Bool × GoError) :=
  (IsValid pin).bind fun v =>
  if v.2 ≠ none then some (false, some (notValidMsg pin))
  else
    (IsMale pin).bind fun m =>
    if m.2 = none then
      some (false, some (pin ++ lit " is not a valid female personal identity number"))
    else some (true, none)

/-! ## Random sources, clock and calendar -/

/-- Go's `(*rand.Rand).Intn(n)`: panics when `n ≤ 0`, and otherwise reduces a
sample `raw` of the source into the half-open interval from 0 to `n`.  Every
value of that interval is the result for some sample, and nothing else is. -/
def Intn (n : Int) (raw : Nat) : Option Int :=
  if n ≤ 0 then none else some ((raw : Int) % n)

/-- Go's `(*rand.Rand).Int63n(n)`, with the same contract as `Intn`. -/
def Int63n (n : Int) (raw : Nat) : Option Int :=
  if n ≤ 0 then none else some ((raw : Int) % n)

/-- The proleptic Gregorian date (year, month, day) of a day counted from
1970-01-01, as `time.Time` computes it for its `Format`. -/
def civil (days : Int) : Int × Int × Int :=
  let z := days + 719468
  let era := z / 146097
  let doe := z - era * 146097
  let yoe := (doe - doe / 1460 + doe / 36524 - doe / 146096) / 365
  let doy := doe - (365 * yoe + yoe / 4 - yoe / 100)
  let mp := (5 * doy + 2) / 153
  let d := doy - (153 * mp + 2) / 5 + 1
  let m := if mp < 10 then mp + 3 else mp - 9
  (if m ≤ 2 then yoe + era * 400 + 1 else yoe + era * 400, m, d)

/-- The helper `appendInt` of Go's `time` package: the decimal form of `x`,
padded with zeros to at least `width` digits, after a minus sign when `x` is
negative. -/
def appendInt (x : Int) (width : Nat) : GoString :=
  (if x < 0 then [45] else []) ++
    List.replicate (width - (decimal x.natAbs).length) 48 ++ decimal x.natAbs

/-- The value of `time.Unix(sec, 0).Format("20060102")` where the local zone is
`offset` seconds east of UTC at that instant: year on at least four digits,
month and day on two. -/
def formatDate (sec offset : Int) : GoString :=
  let ymd := civil ((sec + offset) / 86400)
  appendInt ymd.1 4 ++ appendInt ymd.2.1 2 ++ appendInt ymd.2.2 2

/-- The function `rndDate`: `now` is the value of `time.Now().Unix()`, `zone` gives
the offset of the local time zone at an instant, and `raw` is the sample drawn
from the random source.  The lower bound `min` is the UNIX time of
1970-01-01T00:00:00Z, which is 0. -/
def rndDate (now : Int) (zone : Int → Int) (raw : Nat) : Option GoString :=
  let min : Int := 0
  let max := now
  (Int63n (min + max) raw).bind fun r =>
  let sec := r + min
  some (formatDate sec (zone sec))

/-- The function `rndNumber`; `raw` is the sample drawn from the random source. -/
def rndNumber (min max : Int) (raw : Nat) : Option Int :=
  (Intn (max - min) raw).bind fun r => some (r + min)

/-- The function `GenerateFromDate`; `raw` is the sample drawn from the random
source for the birth number.  The result is the pair (string, error). -/
def GenerateFromDate (date : GoString) (raw : Nat) : Option (GoString × GoError) :=
  if Match validDate date = false then
    some ([], some (date ++ lit " is not a valid date, expects format YYYYMMDD"))
  else
    (rndNumber 100 999 raw).bind fun k =>
    let bn := Itoa k
    (sliceFrom date 2).bind fun d2 =>
    (getControlNumber (d2 ++ bn)).bind fun cn =>
    some (date ++ lit "-" ++ bn ++ encodeRune cn, none)

/-- The function `Generate`: `rawDate` and `rawSerial` are the samples drawn for
the date and for the birth number. -/
def Generate (now : Int) (zone : Int → Int) (rawDate rawSerial : Nat) :
    Option (GoString × GoError) :=
  (rndDate now zone rawDate).bind fun date => GenerateFromDate date rawSerial

/-! ## Reference definitions, worded after the specification -/

/-- The sum of the decimal digits of a number. -/
def digitSum (n : Nat) : Nat := ((decimal n).map fun b => b - 48).sum

/-- The weight of position `i`: 2 at an even position, 1 at an odd one. -/
def weight (i : Nat) : Nat := if i % 2 = 0 then 2 else 1

/-- The digit at position `i` of a digit string. -/
def digitAt (s : GoString) (i : Nat) : Nat := s.getD i 48 - 48

/-- The weighted sum `S` of the specification over the positions 0 to 8. -/
def specSum (s : GoString) : Nat :=
  ((List.range 9).map fun i => digitSum (digitAt s i * weight i)).sum

/-- The check digit of the specification: `(10 − (S mod 10)) mod 10`. -/
def specCheckDigit (s : GoString) : Nat := (10 - specSum s % 10) % 10

/-- A string of exactly `n` ASCII digits. -/
def isDigits (n : Nat) (s : GoString) : Prop := s.length = n ∧ ∀ b ∈ s, isDigit b = true

instance (n : Nat) (s : GoString) : Decidable (isDigits n s) := by
  unfold isDigits; infer_instance

/-- The format of a personal identity number: exactly 8 ASCII digits, one
character that is `-` or `+`, and 4 ASCII digits. -/
def hasPinFormat (pin : GoString) : Prop :=
  pin.length = 13 ∧ (∀ i, i < 8 → isDigit (pin.getD i 0) = true) ∧
    (pin.getD 8 0 = 45 ∨ pin.getD 8 0 = 43) ∧
    (∀ i, i < 4 → isDigit (pin.getD (9 + i) 0) = true)

instance (pin : GoString) : Decidable (hasPinFormat pin) := by
  unfold hasPinFormat; infer_instance

/-- The last character equals the control number of the 9 characters `pin[2..8]`
followed by `pin[9..12]`. -/
def checksumHolds (pin : GoString) : Prop :=
  getControlNumber ((pin.drop 2).take 6 ++ (pin.drop 9).take 3) = pin.getLast?

instance (pin : GoString) : Decidable (checksumHolds pin) := by
  unfold checksumHolds; infer_instance

/-- The character at index `len(pin) − 2` is an odd digit. -/
def hasOddSexDigit (pin : GoString) : Prop :=
  isDigit (pin.getD (pin.length - 2) 0) = true ∧ (pin.getD (pin.length - 2) 0 - 48) % 2 = 1

instance (pin : GoString) : Decidable (hasOddSexDigit pin) := by
  unfold hasOddSexDigit; infer_instance

/-- What a predicate reports, apart from the text of its error: the boolean it
returns and whether an error comes with it. -/
def outcome (r : Option (Bool × GoError)) : Option (Bool × Bool) :=
  r.map fun p => (p.1, p.2.isSome)

/-- The string `pin` with its first two characters replaced by `a` and `b`. -/
def withCentury (a b : Nat) (pin : GoString) : GoString := a :: b :: pin.drop 2

/-- The total of the standard Luhn check over a sequence of digit values: counted
from the right, the last digit is taken as it is, the one next to it is doubled
and replaced by its digit sum, and so on alternately. -/
def luhnTotal (digits : List Nat) : Nat :=
  (digits.reverse.enum.map fun p => if p.1 % 2 = 1 then digitSum (p.2 * 2) else p.2).sum

/-- The standard Luhn check on a digit string: the total is divisible by 10. -/
def passesLuhn (s : GoString) : Prop := luhnTotal (s.map fun b => b - 48) % 10 = 0

instance (s : GoString) : Decidable (passesLuhn s) := by
  unfold passesLuhn; infer_instance

/-- The string `s` with the characters at positions `i` and `i + 1` exchanged. -/
def swapAdjacent (s : GoString) (i : Nat) : GoString :=
  (s.set i (s.getD (i + 1) 0)).set (i + 1) (s.getD i 0)

/-- The timestamp `sec` that `rndDate` chooses, from the clock `now` and the sample
`raw` of the random source: `rnd.Int63n(min+max) + min` with `min` the UNIX time
of 1970-01-01T00:00:00Z, which is 0, and `max` the current UNIX time. -/
def rndDateSec (now : Int) (raw : Nat) : Option Int :=
  let min : Int := 0
  let max := now
  (Int63n (min + max) raw).bind fun r => some (r + min)

/-! ## Decimal rendering -/

theorem digitChar_toNat (d : Nat) (h : d < 10) : (Nat.digitChar d).toNat = 48 + d := by
  interval_cases d <;> rfl

theorem toDigitsCore_one (fuel n : Nat) (ds : List Char) (hn : n < 10) :
    Nat.toDigitsCore 10 (fuel + 1) n ds = Nat.digitChar n :: ds := by
  have h0 : n / 10 = 0 := by omega
  have h1 : n % 10 = n := by omega
  simp [Nat.toDigitsCore, h0, h1]

theorem toDigitsCore_step (fuel n : Nat) (ds : List Char) (hn : 10 ≤ n) :
    Nat.toDigitsCore 10 (fuel + 1) n ds
      = Nat.toDigitsCore 10 fuel (n / 10) (Nat.digitChar (n % 10) :: ds) := by
  have h0 : n / 10 ≠ 0 := by omega
  simp [Nat.toDigitsCore, h0]

theorem decimal_one (n : Nat) (hn : n < 10) : decimal n = [48 + n] := by
  simp [decimal, Nat.toDigits, toDigitsCore_one _ _ _ hn, digitChar_toNat n hn]

theorem decimal_two (n : Nat) (h1 : 10 ≤ n) (h2 : n < 100) :
    decimal n = [48 + n / 10, 48 + n % 10] := by
  obtain ⟨m, rfl⟩ : ∃ m, n = m + 1 := ⟨n - 1, by omega⟩
  have ha : (m + 1) / 10 < 10 := by omega
  have hb : (m + 1) % 10 < 10 := by omega
  simp [decimal, Nat.toDigits, toDigitsCore_step _ _ _ h1, toDigitsCore_one _ _ _ ha,
    digitChar_toNat _ ha, digitChar_toNat _ hb]

theorem decimal_three (n : Nat) (h1 : 100 ≤ n) (h2 : n < 1000) :
    decimal n = [48 + n / 100, 48 + n / 10 % 10, 48 + n % 10] := by
  obtain ⟨m, rfl⟩ : ∃ m, n = m + 2 := ⟨n - 2, by omega⟩
  have h10 : 10 ≤ m + 2 := by omega
  have h10b : 10 ≤ (m + 2) / 10 := by omega
  have ha : (m + 2) / 10 / 10 < 10 := by omega
  have hb : (m + 2) / 10 % 10 < 10 := by omega
  have hc : (m + 2) % 10 < 10 := by omega
  have hd : (m + 2) / 10 / 10 = (m + 2) / 100 := by omega
  unfold decimal Nat.toDigits
  rw [toDigitsCore_step _ _ _ h10, toDigitsCore_step _ _ _ h10b, toDigitsCore_one _ _ _ ha]
  simp only [List.map, digitChar_toNat _ ha, digitChar_toNat _ hb, digitChar_toNat _ hc]
  rw [hd]

theorem decimal_four (n : Nat) (h1 : 1000 ≤ n) (h2 : n < 10000) :
    decimal n = [48 + n / 1000, 48 + n / 100 % 10, 48 + n / 10 % 10, 48 + n % 10] := by
  obtain ⟨m, rfl⟩ : ∃ m, n = m + 3 := ⟨n - 3, by omega⟩
  have h10 : 10 ≤ m + 3 := by omega
  have h10b : 10 ≤ (m + 3) / 10 := by omega
  have h10c : 10 ≤ (m + 3) / 10 / 10 := by omega
  have ha : (m + 3) / 10 / 10 / 10 < 10 := by omega
  have hb : (m + 3) / 10 / 10 % 10 < 10 := by omega
  have hc : (m + 3) / 10 % 10 < 10 := by omega
  have hd : (m + 3) % 10 < 10 := by omega
  have he : (m + 3) / 10 / 10 / 10 = (m + 3) / 1000 := by omega
  have hf : (m + 3) / 10 / 10 = (m + 3) / 100 := by omega
  unfold decimal Nat.toDigits
  rw [toDigitsCore_step _ _ _ h10, toDigitsCore_step _ _ _ h10b, toDigitsCore_step _ _ _ h10c,
    toDigitsCore_one _ _ _ ha]
  simp only [List.map, digitChar_toNat _ ha, digitChar_toNat _ hb, digitChar_toNat _ hc,
    digitChar_toNat _ hd]
  rw [he, hf]

/-! ## Digits, runes and the checksum loop -/

theorem isDigit_iff (b : Nat) : isDigit b = true ↔ 48 ≤ b ∧ b ≤ 57 := by
  simp [isDigit]

theorem Atoi_encodeRune_digit (b : Nat) (h : isDigit b = true) :
    Atoi (encodeRune b) = ((b : Int) - 48, true) := by
  rw [isDigit_iff] at h
  obtain ⟨h1, h2⟩ := h
  interval_cases b <;> decide

theorem digitSum_small :
    ∀ d, d < 10 →
      digitSum (d * 2) = (if 10 ≤ d * 2 then d * 2 - 9 else d * 2) ∧ digitSum (d * 1) = d := by
  decide

/-- The contribution of the digit byte `b` at byte index `i` to the running sum. -/
theorem controlStep_digit (sum : Int) (i b : Nat) (h : isDigit b = true) :
    controlStep sum (i, b) = sum + (digitSum ((b - 48) * weight i) : Nat) := by
  have hA := Atoi_encodeRune_digit b h
  rw [isDigit_iff] at h
  obtain ⟨h1, h2⟩ := h
  obtain ⟨d, rfl⟩ : ∃ d, b = 48 + d := ⟨b - 48, by omega⟩
  have hd : d < 10 := by omega
  obtain ⟨e1, e2⟩ := digitSum_small d hd
  have hsub : 48 + d - 48 = d := by omega
  rcases Nat.mod_two_eq_zero_or_one i with hi | hi
  · have hi2 : (i : Int).tmod 2 = 0 := by
      rw [Int.tmod_eq_emod (by omega) (by omega)]; omega
    simp only [controlStep, hi2, weight, hi, if_true, hA, hsub, e1]
    split_ifs <;> push_cast <;> omega
  · have hi2 : (i : Int).tmod 2 ≠ 0 := by
      rw [Int.tmod_eq_emod (by omega) (by omega)]; omega
    have hi3 : ¬ (i % 2 = 0) := by omega
    simp only [controlStep, hi2, weight, hi3, if_false, hA, hsub, e2]
    split_ifs <;> push_cast <;> omega

theorem decodeRune_ascii (b : Nat) (rest : GoString) (h : b < 128) :
    decodeRune (b :: rest) = (b, 1) := by
  simp [decodeRune, h]

/-- Over a digit string the loop visits every byte, with its own index. -/
theorem foldl_controlStep_digits (s : GoString) (i : Nat) (acc : Int)
    (h : ∀ b ∈ s, isDigit b = true) :
    (rangeFrom s i 0).foldl controlStep acc
      = acc + (((s.enumFrom i).map fun p => digitSum ((p.2 - 48) * weight p.1)).sum : Nat) := by
  induction s generalizing i acc with
  | nil => simp [rangeFrom]
  | cons b rest ih =>
    have hb : isDigit b = true := h b (List.mem_cons_self _ _)
    have hb2 : b < 128 := by rw [isDigit_iff] at hb; omega
    have hrest : ∀ x ∈ rest, isDigit x = true := fun x hx => h x (List.mem_cons_of_mem _ hx)
    simp only [rangeFrom, decodeRune_ascii b rest hb2, List.foldl_cons, Nat.sub_self,
      List.enumFrom_cons, List.map_cons, List.sum_cons]
    rw [ih (i + 1) _ hrest, controlStep_digit acc i b hb]
    push_cast
    ring

theorem controlSum_digits (s : GoString) (h : ∀ b ∈ s, isDigit b = true) :
    controlSum s = (((s.enum.map fun p => digitSum ((p.2 - 48) * weight p.1)).sum : Nat) : Int) := by
  unfold controlSum rangeString
  rw [foldl_controlStep_digits s 0 0 h]
  simp [List.enum]

/-- The last line of `getControlNumber` on a non-negative sum. -/
theorem Itoa_check (n : Nat) :
    index (Itoa ((10 - (n : Int).tmod 10).tmod 10)) 0 = some (48 + (10 - n % 10) % 10) := by
  have h1 : (n : Int).tmod 10 = ((n % 10 : Nat) : Int) := by
    rw [Int.tmod_eq_emod (by omega) (by omega)]; rfl
  have h2 : (10 - ((n % 10 : Nat) : Int)).tmod 10 = (((10 - n % 10) % 10 : Nat) : Int) := by
    rw [Int.tmod_eq_emod (by omega) (by omega)]; omega
  have h3 : (10 - n % 10) % 10 < 10 := Nat.mod_lt _ (by decide)
  rw [h1, h2]
  generalize (10 - n % 10) % 10 = v at *
  have h4 : ¬ ((v : Int) < 0) := by omega
  have h5 : (v : Int).toNat = v := by omega
  unfold Itoa
  rw [if_neg h4, h5, decimal_one v h3]
  rfl

/-- The value of `getControlNumber` on a string of ASCII digits. -/
theorem getControlNumber_digits (s : GoString) (h : ∀ b ∈ s, isDigit b = true) :
    getControlNumber s
      = some (48 + (10 - ((s.enum.map fun p => digitSum ((p.2 - 48) * weight p.1)).sum) % 10) % 10) := by
  unfold getControlNumber
  rw [controlSum_digits s h, Itoa_check]

/-! ## Format checks -/

theorem exists_cons_of_length {α : Type} (s : List α) (n : Nat) (h : s.length = n + 1) :
    ∃ a t, s = a :: t ∧ t.length = n := by
  cases s with
  | nil => simp at h
  | cons a t => exact ⟨a, t, rfl, by simpa using h⟩

theorem length_eight {α : Type} (s : List α) (h : s.length = 8) :
    ∃ a0 a1 a2 a3 a4 a5 a6 a7, s = [a0, a1, a2, a3, a4, a5, a6, a7] := by
  obtain ⟨a0, t0, rfl, h0⟩ := exists_cons_of_length s _ h
  obtain ⟨a1, t1, rfl, h1⟩ := exists_cons_of_length t0 _ h0
  obtain ⟨a2, t2, rfl, h2⟩ := exists_cons_of_length t1 _ h1
  obtain ⟨a3, t3, rfl, h3⟩ := exists_cons_of_length t2 _ h2
  obtain ⟨a4, t4, rfl, h4⟩ := exists_cons_of_length t3 _ h3
  obtain ⟨a5, t5, rfl, h5⟩ := exists_cons_of_length t4 _ h4
  obtain ⟨a6, t6, rfl, h6⟩ := exists_cons_of_length t5 _ h5
  obtain ⟨a7, t7, rfl, h7⟩ := exists_cons_of_length t6 _ h6
  rw [List.length_eq_zero] at h7
  subst h7
  exact ⟨_, _, _, _, _, _, _, _, rfl⟩

theorem length_nine {α : Type} (s : List α) (h : s.length = 9) :
    ∃ a0 a1 a2 a3 a4 a5 a6 a7 a8, s = [a0, a1, a2, a3, a4, a5, a6, a7, a8] := by
  obtain ⟨a0, t0, rfl, h0⟩ := exists_cons_of_length s _ h
  obtain ⟨a1, a2, a3, a4, a5, a6, a7, a8, rfl⟩ := length_eight t0 h0
  exact ⟨_, _, _, _, _, _, _, _, _, rfl⟩

theorem length_thirteen {α : Type} (s : List α) (h : s.length = 13) :
    ∃ a0 a1 a2 a3 a4 a5 a6 a7 a8 a9 a10 a11 a12,
      s = [a0, a1, a2, a3, a4, a5, a6, a7, a8, a9, a10, a11, a12] := by
  obtain ⟨a0, t0, rfl, h0⟩ := exists_cons_of_length s _ h
  obtain ⟨a1, t1, rfl, h1⟩ := exists_cons_of_length t0 _ h0
  obtain ⟨a2, t2, rfl, h2⟩ := exists_cons_of_length t1 _ h1
  obtain ⟨a3, t3, rfl, h3⟩ := exists_cons_of_length t2 _ h2
  obtain ⟨a4, t4, rfl, h4⟩ := exists_cons_of_length t3 _ h3
  obtain ⟨a5, a6, a7, a8, a9, a10, a11, a12, rfl⟩ := length_eight t4 h4
  exact ⟨_, _, _, _, _, _, _, _, _, _, _, _, _, rfl⟩

theorem Match_validDate_length (d : GoString) (h : Match validDate d = true) : d.length = 8 := by
  simp only [Match, validDate, Bool.and_eq_true, decide_eq_true_eq, List.length_take,
    List.isEmpty_iff, List.drop_eq_nil_iff] at h
  omega

theorem Match_validDate_iff (d : GoString) : Match validDate d = true ↔ isDigits 8 d := by
  constructor
  · intro h
    have hlen := Match_validDate_length d h
    obtain ⟨a0, a1, a2, a3, a4, a5, a6, a7, rfl⟩ := length_eight d hlen
    simpa [Match, validDate, isDigits, Piece.accepts, digitClass, isDigit] using h
  · rintro ⟨hlen, h⟩
    obtain ⟨a0, a1, a2, a3, a4, a5, a6, a7, rfl⟩ := length_eight d hlen
    simpa [Match, validDate, isDigits, Piece.accepts, digitClass, isDigit] using h

theorem Match_validPIN_length (pin : GoString) (h : Match validPIN pin = true) :
    pin.length = 13 := by
  simp only [Match, validPIN, Bool.and_eq_true, decide_eq_true_eq, List.length_take,
    List.isEmpty_iff, List.drop_eq_nil_iff, List.length_drop] at h
  omega

theorem Match_validPIN_iff (pin : GoString) : Match validPIN pin = true ↔ hasPinFormat pin := by
  constructor
  · intro h
    have hlen := Match_validPIN_length pin h
    obtain ⟨a0, a1, a2, a3, a4, a5, a6, a7, a8, a9, a10, a11, a12, rfl⟩ :=
      length_thirteen pin hlen
    simp [Match, validPIN, Piece.accepts, digitClass, signClass] at h
    refine ⟨rfl, ?_, ?_, ?_⟩
    · intro i hi
      interval_cases i <;> simp [isDigit] <;> omega
    · simp; omega
    · intro i hi
      interval_cases i <;> simp [isDigit] <;> omega
  · rintro ⟨hlen, h1, h2, h3⟩
    obtain ⟨a0, a1, a2, a3, a4, a5, a6, a7, a8, a9, a10, a11, a12, rfl⟩ :=
      length_thirteen pin hlen
    have e0 := h1 0 (by decide)
    have e1 := h1 1 (by decide)
    have e2 := h1 2 (by decide)
    have e3 := h1 3 (by decide)
    have e4 := h1 4 (by decide)
    have e5 := h1 5 (by decide)
    have e6 := h1 6 (by decide)
    have e7 := h1 7 (by decide)
    have e9 := h3 0 (by decide)
    have e10 := h3 1 (by decide)
    have e11 := h3 2 (by decide)
    have e12 := h3 3 (by decide)
    simp [isDigit] at e0 e1 e2 e3 e4 e5 e6 e7 e9 e10 e11 e12 h2
    simp [Match, validPIN, Piece.accepts, digitClass, signClass]
    omega

/-- The outcome of `IsValid` on a string of the right format is decided by the
comparison of the control numbers. -/
theorem IsValid_of_format (pin : GoString) (h : hasPinFormat pin) :
    IsValid pin
      = if checksumHolds pin then some (true, none) else some (false, some (notValidMsg pin)) := by
  have hm := (Match_validPIN_iff pin).mpr h
  obtain ⟨a0, a1, a2, a3, a4, a5, a6, a7, a8, a9, a10, a11, a12, rfl⟩ := length_thirteen pin h.1
  have hd : ∀ b ∈ [a2, a3, a4, a5, a6, a7, a9, a10, a11], isDigit b = true := by
    obtain ⟨_, h1, _, h3⟩ := h
    have e2 := h1 2 (by decide)
    have e3 := h1 3 (by decide)
    have e4 := h1 4 (by decide)
    have e5 := h1 5 (by decide)
    have e6 := h1 6 (by decide)
    have e7 := h1 7 (by decide)
    have e9 := h3 0 (by decide)
    have e10 := h3 1 (by decide)
    have e11 := h3 2 (by decide)
    simp at e2 e3 e4 e5 e6 e7 e9 e10 e11
    simp [*]
  have hg := getControlNumber_digits _ hd
  simp only [IsValid, hm, checksumHolds, sliceFrom, sliceTo, index]
  simp [hg]

theorem IsValid_of_not_format (pin : GoString) (h : ¬ hasPinFormat pin) :
    IsValid pin = some (false, some (notValidMsg pin)) := by
  have hm : Match validPIN pin = false := by
    rw [← Bool.not_eq_true, Match_validPIN_iff]; exact h
  simp [IsValid, hm]

/-! ## Outcomes of the predicates -/

theorem IsValid_cases (pin : GoString) :
    IsValid pin = some (true, none) ∨ IsValid pin = some (false, some (notValidMsg pin)) := by
  by_cases h : hasPinFormat pin
  · rw [IsValid_of_format pin h]
    by_cases hc : checksumHolds pin <;> simp [hc]
  · exact Or.inr (IsValid_of_not_format pin h)

theorem IsValid_true_iff (pin : GoString) :
    IsValid pin = some (true, none) ↔ hasPinFormat pin ∧ checksumHolds pin := by
  by_cases h : hasPinFormat pin
  · rw [IsValid_of_format pin h]
    by_cases hc : checksumHolds pin <;> simp [hc, h]
  · rw [IsValid_of_not_format pin h]
    simp [h]

theorem IsMale_of_valid (pin : GoString) (h : IsValid pin = some (true, none)) :
    IsMale pin
      = if hasOddSexDigit pin then some (true, none)
        else some (false, some (pin ++ lit " is not a valid male personal identity number")) := by
  have hf := ((IsValid_true_iff pin).mp h).1
  obtain ⟨a0, a1, a2, a3, a4, a5, a6, a7, a8, a9, a10, a11, a12, rfl⟩ := length_thirteen pin hf.1
  have hd : isDigit a11 = true := by simpa using hf.2.2.2 2 (by decide)
  have hA := Atoi_encodeRune_digit a11 hd
  have hd2 := (isDigit_iff a11).mp hd
  have hidx : index [a0, a1, a2, a3, a4, a5, a6, a7, a8, a9, a10, a11, a12]
      ((([a0, a1, a2, a3, a4, a5, a6, a7, a8, a9, a10, a11, a12] : GoString).length : Int) - 2)
      = some a11 := by
    simp [index]
  have hmod : ((a11 : Int) - 48).tmod 2 = 0 ↔ ¬ ((a11 - 48) % 2 = 1) := by
    rw [Int.tmod_eq_emod (by omega) (by omega)]; omega
  unfold IsMale
  rw [h]
  simp only [Option.bind, hidx, hA, hasOddSexDigit]
  by_cases hodd : (a11 - 48) % 2 = 1
  · have : ¬ (((a11 : Int) - 48).tmod 2 = 0) := by rw [hmod]; simpa using hodd
    simp [this, hodd, hd]
  · have : ((a11 : Int) - 48).tmod 2 = 0 := hmod.mpr hodd
    simp [this, hodd]

theorem IsMale_of_invalid (pin : GoString) (h : IsValid pin ≠ some (true, none)) :
    IsMale pin = some (false, some (notValidMsg pin)) := by
  have h2 := (IsValid_cases pin).resolve_left h
  simp [IsMale, h2]

theorem IsFemale_of_valid (pin : GoString) (h : IsValid pin = some (true, none)) :
    IsFemale pin
      = if hasOddSexDigit pin then
          some (false, some (pin ++ lit " is not a valid female personal identity number"))
        else some (true, none) := by
  unfold IsFemale
  rw [h, IsMale_of_valid pin h]
  by_cases hodd : hasOddSexDigit pin <;> simp [hodd]

theorem IsFemale_of_invalid (pin : GoString) (h : IsValid pin ≠ some (true, none)) :
    IsFemale pin = some (false, some (notValidMsg pin)) := by
  have h2 := (IsValid_cases pin).resolve_left h
  simp [IsFemale, h2]

/-! ## Generation -/

theorem rndNumber_serial (raw : Nat) :
    rndNumber 100 999 raw = some ((raw % 899 + 100 : Nat) : Int) := by
  simp [rndNumber, Intn]

theorem Itoa_serial (k : Nat) (h1 : 100 ≤ k) (h2 : k < 1000) :
    Itoa (k : Int) = [48 + k / 100, 48 + k / 10 % 10, 48 + k % 10] := by
  have h : ¬ ((k : Int) < 0) := by omega
  unfold Itoa
  rw [if_neg h, Int.toNat_ofNat, decimal_three k h1 h2]

theorem encodeRune_ascii (b : Nat) (h : b < 128) : encodeRune b = [b] := by
  simp [encodeRune, h]

/-- The result of `GenerateFromDate` on a date of 8 digits: the date, a hyphen, the
three digits of the serial and the control number of the last six digits of the
date followed by the serial. -/
theorem GenerateFromDate_of_date (d : GoString) (raw : Nat) (h : isDigits 8 d) :
    ∃ cn, isDigit cn = true ∧
      getControlNumber (d.drop 2 ++ Itoa ((raw % 899 + 100 : Nat) : Int)) = some cn ∧
      GenerateFromDate d raw
        = some (d ++ [45] ++ Itoa ((raw % 899 + 100 : Nat) : Int) ++ [cn], none) := by
  have hm := (Match_validDate_iff d).mpr h
  obtain ⟨hlen, hd⟩ := h
  have hk := Itoa_serial (raw % 899 + 100) (by omega) (by omega)
  have hdig : ∀ b ∈ d.drop 2 ++ Itoa ((raw % 899 + 100 : Nat) : Int), isDigit b = true := by
    intro b hb
    rcases List.mem_append.mp hb with hb | hb
    · exact hd b (List.mem_of_mem_drop hb)
    · rw [hk] at hb
      simp only [List.mem_cons, List.mem_singleton, List.not_mem_nil, or_false] at hb
      rw [isDigit_iff]
      omega
  have hg := getControlNumber_digits _ hdig
  refine ⟨_, ?_, hg, ?_⟩
  · rw [isDigit_iff]; omega
  · have henc : ∀ v, encodeRune (48 + v % 10) = [48 + v % 10] := fun v =>
      encodeRune_ascii _ (by omega)
    have hlit : lit "-" = [45] := by decide
    have h2 : 2 ≤ d.length := by omega
    have hm2 : ¬ (Match validDate d = false) := by simp [hm]
    unfold GenerateFromDate
    rw [if_neg hm2, rndNumber_serial]
    simp only [Option.some_bind, sliceFrom, if_pos h2, hg, henc, hlit]

theorem GenerateFromDate_of_not_date (d : GoString) (raw : Nat) (h : ¬ isDigits 8 d) :
    GenerateFromDate d raw
      = some ([], some (d ++ lit " is not a valid date, expects format YYYYMMDD")) := by
  have hm : Match validDate d = false := by
    rw [← Bool.not_eq_true, Match_validDate_iff]; exact h
  simp [GenerateFromDate, hm]

/-- A generated number passes validation. -/
theorem GenerateFromDate_valid (d : GoString) (raw : Nat) (h : isDigits 8 d) :
    ∃ pin, GenerateFromDate d raw = some (pin, none) ∧ IsValid pin = some (true, none) := by
  obtain ⟨cn, hcn, hg, hgen⟩ := GenerateFromDate_of_date d raw h
  refine ⟨_, hgen, ?_⟩
  have hk := Itoa_serial (raw % 899 + 100) (by omega) (by omega)
  rw [hk] at hg ⊢
  obtain ⟨hlen, hd⟩ := h
  obtain ⟨a0, a1, a2, a3, a4, a5, a6, a7, rfl⟩ := length_eight d hlen
  rw [IsValid_true_iff]
  have e0 := hd a0 (by simp)
  have e1 := hd a1 (by simp)
  have e2 := hd a2 (by simp)
  have e3 := hd a3 (by simp)
  have e4 := hd a4 (by simp)
  have e5 := hd a5 (by simp)
  have e6 := hd a6 (by simp)
  have e7 := hd a7 (by simp)
  constructor
  · refine ⟨by simp, ?_, by simp, ?_⟩
    · intro i hi
      interval_cases i <;> simpa
    · intro i hi
      interval_cases i
      · simp [isDigit]; omega
      · simp [isDigit]; omega
      · simp [isDigit]; omega
      · simpa using hcn
  · simp only [checksumHolds]
    simpa using hg

/-! ## Dates -/

theorem civil_month_day (days : Int) :
    1 ≤ (civil days).2.1 ∧ (civil days).2.1 ≤ 12 ∧ 1 ≤ (civil days).2.2 ∧ (civil days).2.2 ≤ 31 := by
  simp only [civil]
  split_ifs <;> omega

theorem civil_year (days : Int) (h1 : -719468 ≤ days) (h2 : days < 2932897) :
    0 ≤ (civil days).1 ∧ (civil days).1 ≤ 9999 := by
  simp only [civil]
  split_ifs <;> omega

theorem appendInt_two (x : Int) (h0 : 0 ≤ x) (h1 : x < 100) : isDigits 2 (appendInt x 2) := by
  obtain ⟨n, rfl⟩ := Int.eq_ofNat_of_zero_le h0
  have hneg : ¬ ((n : Int) < 0) := by omega
  simp only [appendInt, if_neg hneg, Int.natAbs_ofNat, List.nil_append]
  by_cases hn : n < 10
  · rw [decimal_one n hn]
    refine ⟨by simp, ?_⟩
    intro b hb
    simp at hb
    rw [isDigit_iff]
    omega
  · rw [decimal_two n (by omega) (by omega)]
    refine ⟨by simp, ?_⟩
    intro b hb
    simp at hb
    rw [isDigit_iff]
    omega

theorem appendInt_four (x : Int) (h0 : 0 ≤ x) (h1 : x < 10000) :
    isDigits 4 (appendInt x 4) := by
  obtain ⟨n, rfl⟩ := Int.eq_ofNat_of_zero_le h0
  have hneg : ¬ ((n : Int) < 0) := by omega
  simp only [appendInt, if_neg hneg, Int.natAbs_ofNat, List.nil_append]
  by_cases hn : n < 10
  · rw [decimal_one n hn]
    refine ⟨by simp, ?_⟩
    intro b hb
    simp [List.replicate] at hb
    rw [isDigit_iff]
    omega
  · by_cases hn2 : n < 100
    · rw [decimal_two n (by omega) (by omega)]
      refine ⟨by simp, ?_⟩
      intro b hb
      simp [List.replicate] at hb
      rw [isDigit_iff]
      omega
    · by_cases hn3 : n < 1000
      · rw [decimal_three n (by omega) (by omega)]
        refine ⟨by simp, ?_⟩
        intro b hb
        simp [List.replicate] at hb
        rw [isDigit_iff]
        omega
      · rw [decimal_four n (by omega) (by omega)]
        refine ⟨by simp, ?_⟩
        intro b hb
        simp at hb
        rw [isDigit_iff]
        omega

theorem isDigits_append (m n : Nat) (s t : GoString) (hs : isDigits m s) (ht : isDigits n t) :
    isDigits (m + n) (s ++ t) := by
  refine ⟨by simp [hs.1, ht.1], ?_⟩
  intro b hb
  rcases List.mem_append.mp hb with hb | hb
  · exact hs.2 b hb
  · exact ht.2 b hb

/-- A moment whose local date lies in the years 0 to 9999 is formatted as 8 digits. -/
theorem formatDate_digits (sec offset : Int) (h1 : -62162035200 ≤ sec + offset)
    (h2 : sec + offset < 253402300800) : isDigits 8 (formatDate sec offset) := by
  have hy := civil_year ((sec + offset) / 86400) (by omega) (by omega)
  have hmd := civil_month_day ((sec + offset) / 86400)
  unfold formatDate
  exact isDigits_append 6 2 _ _
    (isDigits_append 4 2 _ _ (appendInt_four _ hy.1 (by omega))
      (appendInt_two _ (by omega) (by omega)))
    (appendInt_two _ (by omega) (by omega))

theorem rndDate_digits (now : Int) (zone : Int → Int) (raw : Nat) (h0 : 0 < now)
    (h1 : now ≤ 253402214400) (hz : ∀ t, -86400 ≤ zone t ∧ zone t ≤ 86400) :
    ∃ d, rndDate now zone raw = some d ∧ isDigits 8 d := by
  have hn : ¬ (now ≤ 0) := by omega
  have hr0 : 0 ≤ (raw : Int) % now := Int.emod_nonneg _ (by omega)
  have hr1 : (raw : Int) % now < now := Int.emod_lt_of_pos _ h0
  have hzz := hz ((raw : Int) % now)
  refine ⟨_, by simp [rndDate, Int63n, hn]; rfl, ?_⟩
  exact formatDate_digits _ _ (by omega) (by omega)

theorem Generate_of_bounds (now : Int) (zone : Int → Int) (rawDate rawSerial : Nat)
    (h0 : 0 < now) (h1 : now ≤ 253402214400) (hz : ∀ t, -86400 ≤ zone t ∧ zone t ≤ 86400) :
    ∃ pin, Generate now zone rawDate rawSerial = some (pin, none) ∧
      IsValid pin = some (true, none) := by
  obtain ⟨d, hd, hdig⟩ := rndDate_digits now zone rawDate h0 h1 hz
  obtain ⟨pin, hp, hv⟩ := GenerateFromDate_valid d rawSerial hdig
  exact ⟨pin, by simp [Generate, hd, hp], hv⟩

/-! ## The checksum on arbitrary strings -/

theorem Atoi_encodeRune_nondigit (r : Nat) (h : isDigit r = false) :
    Atoi (encodeRune r) = (0, false) := by
  have hr : ¬ (48 ≤ r ∧ r ≤ 57) := by
    rw [← isDigit_iff]; simp [h]
  unfold encodeRune
  split_ifs with h1 h2 h3 h4
  · by_cases hs : r = 45 ∨ r = 43
    · simp [Atoi, hs]
    · have h45 : ¬ (r = 45) := fun e => hs (Or.inl e)
      have h43 : ¬ (r = 43) := fun e => hs (Or.inr e)
      simp [Atoi, h45, h43, h]
  · have e1 : ¬ (192 + r / 64 = 45) := by omega
    have e2 : ¬ (192 + r / 64 = 43) := by omega
    have e3 : isDigit (192 + r / 64) = false := by simp [isDigit]; omega
    simp [Atoi, e1, e2, e3]
  · simp [Atoi, isDigit]
  · have e1 : ¬ (224 + r / 4096 = 45) := by omega
    have e2 : ¬ (224 + r / 4096 = 43) := by omega
    have e3 : isDigit (224 + r / 4096) = false := by simp [isDigit]; omega
    simp [Atoi, e1, e2, e3]
  · have e1 : ¬ (240 + r / 262144 = 45) := by omega
    have e2 : ¬ (240 + r / 262144 = 43) := by omega
    have e3 : isDigit (240 + r / 262144) = false := by simp [isDigit]; omega
    simp [Atoi, e1, e2, e3]

/-- A rune that is not an ASCII digit leaves the running sum as it is. -/
theorem controlStep_nondigit (sum : Int) (i r : Nat) (h : isDigit r = false) :
    controlStep sum (i, r) = sum := by
  simp [controlStep, Atoi_encodeRune_nondigit r h]

theorem digitSum_weight_le (d i : Nat) (h : d < 10) : digitSum (d * weight i) ≤ 9 := by
  obtain ⟨e1, e2⟩ := digitSum_small d h
  unfold weight
  split_ifs
  · rw [e1]; split_ifs <;> omega
  · rw [e2]; omega

/-- Every iteration adds a value from 0 to 9 to the running sum. -/
theorem controlStep_add (sum : Int) (ic : Nat × Nat) :
    ∃ t : Nat, t ≤ 9 ∧ controlStep sum ic = sum + (t : Int) := by
  obtain ⟨i, r⟩ := ic
  by_cases h : isDigit r = true
  · refine ⟨digitSum ((r - 48) * weight i), ?_, controlStep_digit sum i r h⟩
    rw [isDigit_iff] at h
    exact digitSum_weight_le _ _ (by omega)
  · have h2 : isDigit r = false := by simpa using h
    exact ⟨0, by omega, by simp [controlStep_nondigit sum i r h2]⟩

theorem foldl_controlStep_add (l : List (Nat × Nat)) (acc : Int) :
    ∃ n : Nat, l.foldl controlStep acc = acc + (n : Int) := by
  induction l generalizing acc with
  | nil => exact ⟨0, by simp⟩
  | cons ic rest ih =>
    obtain ⟨t, _, ht⟩ := controlStep_add acc ic
    obtain ⟨n, hn⟩ := ih (controlStep acc ic)
    refine ⟨t + n, ?_⟩
    rw [List.foldl_cons, hn, ht]
    push_cast
    ring

/-- The running sum is never negative. -/
theorem controlSum_nat (s : GoString) : ∃ n : Nat, controlSum s = (n : Int) := by
  obtain ⟨n, hn⟩ := foldl_controlStep_add (rangeString s) 0
  exact ⟨n, by simpa [controlSum] using hn⟩

theorem check_value (n : Nat) :
    (10 - (n : Int).tmod 10).tmod 10 = (((10 - n % 10) % 10 : Nat) : Int) := by
  have h1 : (n : Int).tmod 10 = ((n % 10 : Nat) : Int) := by
    rw [Int.tmod_eq_emod (by omega) (by omega)]; rfl
  rw [h1, Int.tmod_eq_emod (by omega) (by omega)]
  omega

/-- On every string `getControlNumber` returns, and what it returns is an ASCII
digit. -/
theorem getControlNumber_total (s : GoString) :
    ∃ c, getControlNumber s = some c ∧ isDigit c = true := by
  obtain ⟨n, hn⟩ := controlSum_nat s
  refine ⟨48 + (10 - n % 10) % 10, ?_, ?_⟩
  · unfold getControlNumber
    rw [hn, Itoa_check]
  · rw [isDigit_iff]; omega

/-! ## Replacing characters -/

/-- The weighted digit sum after one character is replaced. -/
theorem sum_enumFrom_set (f : Nat → Nat → Nat) (s : GoString) (k i x : Nat)
    (h : i < s.length) :
    (((s.set i x).enumFrom k).map fun p => f p.1 p.2).sum + f (k + i) (s.getD i 0)
      = ((s.enumFrom k).map fun p => f p.1 p.2).sum + f (k + i) x := by
  induction s generalizing k i with
  | nil => simp at h
  | cons a t ih =>
    cases i with
    | zero =>
      simp only [List.set_cons_zero, List.enumFrom_cons, List.map_cons, List.sum_cons,
        List.getD_cons_zero, Nat.add_zero]
      omega
    | succ j =>
      have hj : j < t.length := by simpa using h
      have e := ih (k + 1) j hj
      have hk : k + 1 + j = k + (j + 1) := by omega
      rw [hk] at e
      simp only [List.set_cons_succ, List.enumFrom_cons, List.map_cons, List.sum_cons,
        List.getD_cons_succ]
      omega

theorem getD_set (s : GoString) (i x j : Nat) :
    (s.set i x).getD j 0 = if i = j ∧ j < s.length then x else s.getD j 0 := by
  induction s generalizing i j with
  | nil => simp
  | cons a t ih =>
    cases i with
    | zero =>
      cases j with
      | zero => simp
      | succ j => simp
    | succ i =>
      cases j with
      | zero => simp
      | succ j =>
        have hc : (i + 1 = j + 1 ∧ j + 1 < t.length + 1) ↔ (i = j ∧ j < t.length) := by omega
        simp only [List.set_cons_succ, List.getD_cons_succ, List.length_cons, ih, hc]

theorem digits_set (s : GoString) (i x : Nat) (hs : ∀ b ∈ s, isDigit b = true)
    (hx : isDigit x = true) : ∀ b ∈ s.set i x, isDigit b = true := by
  intro b hb
  rcases List.mem_or_eq_of_mem_set hb with h | h
  · exact hs b h
  · rw [h]; exact hx

theorem getD_digit (s : GoString) (i : Nat) (hs : ∀ b ∈ s, isDigit b = true)
    (hi : i < s.length) : isDigit (s.getD i 0) = true := by
  rw [List.getD_eq_getElem _ _ hi]
  exact hs _ (List.getElem_mem _)

theorem digitSum_double_inj (d : Nat) (hd : d < 10) (e : Nat) (he : e < 10) (hne : d ≠ e) :
    digitSum (d * 2) ≠ digitSum (e * 2) := by
  rw [(digitSum_small d hd).1, (digitSum_small e he).1]
  split_ifs <;> omega

theorem digitSum_weight_inj (d e i : Nat) (hd : d < 10) (he : e < 10) (hne : d ≠ e) :
    digitSum (d * weight i) ≠ digitSum (e * weight i) := by
  unfold weight
  split_ifs
  · exact digitSum_double_inj d hd e he hne
  · rw [(digitSum_small d hd).2, (digitSum_small e he).2]; exact hne

/-- Two sums that differ by the exchange of `a` for `b` give the same check digit
exactly when `a` and `b` agree modulo 10. -/
theorem check_eq_iff (S T a b : Nat) (h : T + b = S + a) :
    48 + (10 - T % 10) % 10 = 48 + (10 - S % 10) % 10 ↔ a % 10 = b % 10 := by
  omega

/-- Replacing one digit of a digit string by another digit changes the control
number. -/
theorem getControlNumber_set_ne (s : GoString) (i x : Nat) (hs : ∀ b ∈ s, isDigit b = true)
    (hi : i < s.length) (hx : isDigit x = true) (hne : x ≠ s.getD i 0) :
    getControlNumber (s.set i x) ≠ getControlNumber s := by
  rw [getControlNumber_digits s hs, getControlNumber_digits _ (digits_set s i x hs hx)]
  have hold := (isDigit_iff _).mp (getD_digit s i hs hi)
  have hnew := (isDigit_iff _).mp hx
  have e := sum_enumFrom_set (fun j b => digitSum ((b - 48) * weight j)) s 0 i x hi
  have l1 := digitSum_weight_le (x - 48) i (by omega)
  have l2 := digitSum_weight_le (s.getD i 0 - 48) i (by omega)
  have l3 := digitSum_weight_inj (x - 48) (s.getD i 0 - 48) i (by omega) (by omega) (by omega)
  simp only [Nat.zero_add] at e
  simp only [List.enum, ne_eq, Option.some.injEq]
  rw [check_eq_iff _ _ _ _ e]
  intro hmod
  apply l3
  rw [← Nat.mod_eq_of_lt (show digitSum ((x - 48) * weight i) < 10 by omega), hmod,
    Nat.mod_eq_of_lt (show digitSum ((s.getD i 0 - 48) * weight i) < 10 by omega)]

theorem swap_check (a : Nat) (ha : a < 10) (b : Nat) (hb : b < 10) (hne : a ≠ b) :
    (digitSum (a * 2) + b) % 10 = (digitSum (b * 2) + a) % 10
      ↔ (a = 0 ∧ b = 9) ∨ (a = 9 ∧ b = 0) := by
  rw [(digitSum_small a ha).1, (digitSum_small b hb).1]
  split_ifs <;> omega

/-- The control number after two neighbouring digits are exchanged. -/
theorem getControlNumber_swap (s : GoString) (i : Nat) (hs : ∀ b ∈ s, isDigit b = true)
    (hi : i + 1 < s.length) (hne : s.getD i 0 ≠ s.getD (i + 1) 0) :
    getControlNumber (swapAdjacent s i) ≠ getControlNumber s
      ↔ ¬ ((s.getD i 0 = 48 ∧ s.getD (i + 1) 0 = 57) ∨ (s.getD i 0 = 57 ∧ s.getD (i + 1) 0 = 48)) := by
  have ha := getD_digit s i hs (by omega)
  have hb := getD_digit s (i + 1) hs hi
  have hs1 := digits_set s i _ hs hb
  have hs2 := digits_set _ (i + 1) _ hs1 ha
  unfold swapAdjacent
  rw [getControlNumber_digits s hs, getControlNumber_digits _ hs2]
  have e1 := sum_enumFrom_set (fun j b => digitSum ((b - 48) * weight j)) s 0 i
    (s.getD (i + 1) 0) (by omega)
  have e2 := sum_enumFrom_set (fun j b => digitSum ((b - 48) * weight j))
    (s.set i (s.getD (i + 1) 0)) 0 (i + 1) (s.getD i 0) (by simpa using hi)
  have hg : (s.set i (s.getD (i + 1) 0)).getD (i + 1) 0 = s.getD (i + 1) 0 := by
    rw [getD_set]; simp
  rw [hg] at e2
  simp only [Nat.zero_add] at e1 e2
  rw [isDigit_iff] at ha hb
  obtain ⟨a, hae⟩ : ∃ a, s.getD i 0 = 48 + a := ⟨s.getD i 0 - 48, by omega⟩
  obtain ⟨b, hbe⟩ : ∃ b, s.getD (i + 1) 0 = 48 + b := ⟨s.getD (i + 1) 0 - 48, by omega⟩
  rw [hae, hbe] at e1 e2 hne ⊢
  simp only [Nat.add_sub_cancel_left] at e1 e2
  have ha10 : a < 10 := by omega
  have hb10 : b < 10 := by omega
  have hab : a ≠ b := by omega
  have sa := digitSum_small a ha10
  have sb := digitSum_small b hb10
  simp only [List.enum, ne_eq, Option.some.injEq]
  have hp : (48 + a = 48 ∧ 48 + b = 57 ∨ 48 + a = 57 ∧ 48 + b = 48)
      ↔ (a = 0 ∧ b = 9) ∨ (a = 9 ∧ b = 0) := by omega
  rw [hp]
  rcases Nat.mod_two_eq_zero_or_one i with hpar | hpar
  · have w1 : weight i = 2 := by simp [weight, hpar]
    have w2 : weight (i + 1) = 1 := by
      have : ¬ ((i + 1) % 2 = 0) := by omega
      simp [weight, this]
    simp only [w1, w2, sa.2, sb.2] at e1 e2
    have e3 : (((((s.set i (48 + b)).set (i + 1) (48 + a)).enumFrom 0).map
        fun p => digitSum ((p.2 - 48) * weight p.1)).sum) + (digitSum (a * 2) + b)
        = ((s.enumFrom 0).map fun p => digitSum ((p.2 - 48) * weight p.1)).sum
          + (digitSum (b * 2) + a) := by
      linarith
    rw [check_eq_iff _ _ _ _ e3, ← swap_check a ha10 b hb10 hab]
    exact not_congr eq_comm
  · have w1 : weight i = 1 := by
      have : ¬ (i % 2 = 0) := by omega
      simp [weight, this]
    have w2 : weight (i + 1) = 2 := by
      have : (i + 1) % 2 = 0 := by omega
      simp [weight, this]
    simp only [w1, w2, sa.2, sb.2] at e1 e2
    have e3 : (((((s.set i (48 + b)).set (i + 1) (48 + a)).enumFrom 0).map
        fun p => digitSum ((p.2 - 48) * weight p.1)).sum) + (digitSum (b * 2) + a)
        = ((s.enumFrom 0).map fun p => digitSum ((p.2 - 48) * weight p.1)).sum
          + (digitSum (a * 2) + b) := by
      linarith
    rw [check_eq_iff _ _ _ _ e3, ← swap_check a ha10 b hb10 hab]

/-! ## Pins that differ in one place -/

theorem length_four {α : Type} (s : List α) (h : s.length = 4) :
    ∃ a0 a1 a2 a3, s = [a0, a1, a2, a3] := by
  obtain ⟨a0, t0, rfl, h0⟩ := exists_cons_of_length s _ h
  obtain ⟨a1, t1, rfl, h1⟩ := exists_cons_of_length t0 _ h0
  obtain ⟨a2, t2, rfl, h2⟩ := exists_cons_of_length t1 _ h1
  obtain ⟨a3, t3, rfl, h3⟩ := exists_cons_of_length t2 _ h2
  rw [List.length_eq_zero] at h3
  subst h3
  exact ⟨_, _, _, _, rfl⟩

/-- The format of a pin assembled from 8 digits, a separator and 4 digits. -/
theorem hasPinFormat_assembled (d r : GoString) (sep : Nat) (hd : isDigits 8 d)
    (hr : isDigits 4 r) (hsep : sep = 45 ∨ sep = 43) : hasPinFormat (d ++ [sep] ++ r) := by
  obtain ⟨hdl, hdd⟩ := hd
  obtain ⟨hrl, hrd⟩ := hr
  obtain ⟨a0, a1, a2, a3, a4, a5, a6, a7, rfl⟩ := length_eight d hdl
  obtain ⟨b0, b1, b2, b3, rfl⟩ := length_four r hrl
  refine ⟨by simp, ?_, by simpa using hsep, ?_⟩
  · intro i hi
    interval_cases i <;> exact hdd _ (by simp)
  · intro i hi
    interval_cases i <;> exact hrd _ (by simp)

/-- The checksum test of an assembled pin does not look at the separator. -/
theorem checksumHolds_assembled (d r : GoString) (sep : Nat) (hd : d.length = 8)
    (hr : r.length = 4) :
    checksumHolds (d ++ [sep] ++ r) ↔ getControlNumber (d.drop 2 ++ r.take 3) = r.getLast? := by
  obtain ⟨a0, a1, a2, a3, a4, a5, a6, a7, rfl⟩ := length_eight d hd
  obtain ⟨b0, b1, b2, b3, rfl⟩ := length_four r hr
  simp [checksumHolds]

theorem hasPinFormat_withCentury (pin : GoString) (a b : Nat) (hf : hasPinFormat pin)
    (ha : isDigit a = true) (hb : isDigit b = true) : hasPinFormat (withCentury a b pin) := by
  obtain ⟨hlen, h1, h2, h3⟩ := hf
  obtain ⟨a0, a1, a2, a3, a4, a5, a6, a7, a8, a9, a10, a11, a12, rfl⟩ := length_thirteen pin hlen
  refine ⟨by simp [withCentury], ?_, by simpa [withCentury] using h2, ?_⟩
  · intro i hi
    have e := h1 i hi
    interval_cases i <;> first | exact ha | exact hb | exact e
  · intro i hi
    have e := h3 i hi
    interval_cases i <;> exact e

theorem checksumHolds_withCentury (pin : GoString) (a b : Nat) (hlen : pin.length = 13) :
    checksumHolds (withCentury a b pin) ↔ checksumHolds pin := by
  obtain ⟨a0, a1, a2, a3, a4, a5, a6, a7, a8, a9, a10, a11, a12, rfl⟩ := length_thirteen pin hlen
  simp [checksumHolds, withCentury]

theorem hasOddSexDigit_withCentury (pin : GoString) (a b : Nat) (hlen : pin.length = 13) :
    hasOddSexDigit (withCentury a b pin) ↔ hasOddSexDigit pin := by
  obtain ⟨a0, a1, a2, a3, a4, a5, a6, a7, a8, a9, a10, a11, a12, rfl⟩ := length_thirteen pin hlen
  simp [hasOddSexDigit, withCentury]

theorem IsValid_withCentury (pin : GoString) (a b : Nat) (hf : hasPinFormat pin)
    (ha : isDigit a = true) (hb : isDigit b = true) :
    IsValid (withCentury a b pin) = some (true, none) ↔ IsValid pin = some (true, none) := by
  rw [IsValid_true_iff, IsValid_true_iff, checksumHolds_withCentury pin a b hf.1]
  have := hasPinFormat_withCentury pin a b hf ha hb
  tauto

theorem outcome_IsValid (pin : GoString) :
    outcome (IsValid pin)
      = if IsValid pin = some (true, none) then some (true, false) else some (false, true) := by
  rcases IsValid_cases pin with h | h <;> simp [h, outcome]

theorem outcome_IsMale (pin : GoString) :
    outcome (IsMale pin)
      = if IsValid pin = some (true, none) ∧ hasOddSexDigit pin then some (true, false)
        else some (false, true) := by
  by_cases hv : IsValid pin = some (true, none)
  · rw [IsMale_of_valid pin hv]
    by_cases hodd : hasOddSexDigit pin <;> simp [hv, hodd, outcome]
  · rw [IsMale_of_invalid pin hv]
    simp [hv, outcome]

theorem outcome_IsFemale (pin : GoString) :
    outcome (IsFemale pin)
      = if IsValid pin = some (true, none) ∧ ¬ hasOddSexDigit pin then some (true, false)
        else some (false, true) := by
  by_cases hv : IsValid pin = some (true, none)
  · rw [IsFemale_of_valid pin hv]
    by_cases hodd : hasOddSexDigit pin <;> simp [hv, hodd, outcome]
  · rw [IsFemale_of_invalid pin hv]
    simp [hv, outcome]

theorem hasPinFormat_set (pin : GoString) (i x : Nat) (hf : hasPinFormat pin) (hi : i ≠ 8)
    (hx : isDigit x = true) : hasPinFormat (pin.set i x) := by
  obtain ⟨hlen, h1, h2, h3⟩ := hf
  refine ⟨by simpa using hlen, ?_, ?_, ?_⟩
  · intro j hj
    rw [getD_set]
    split_ifs
    · exact hx
    · exact h1 j hj
  · rw [getD_set]
    have : ¬ (i = 8 ∧ 8 < pin.length) := fun h => hi h.1
    rw [if_neg this]
    exact h2
  · intro j hj
    rw [getD_set]
    split_ifs
    · exact hx
    · exact h3 j hj

/-! ## The claims -/

/-- C1: for every date of exactly 8 ASCII digits and every sample of the random
source, `GenerateFromDate` returns no error and a pin that `IsValid` accepts. -/
theorem generate_from_date_round_trip (d : GoString) (raw : Nat) (h : isDigits 8 d) :
    ∃ pin, GenerateFromDate d raw = some (pin, none) ∧ IsValid pin = some (true, none) :=
  GenerateFromDate_valid d raw h

/-- C1, at the date `19901121` of the test suite. -/
theorem generate_from_date_round_trip_witness :
    isDigits 8 (lit "19901121") ∧
      ∃ pin, GenerateFromDate (lit "19901121") 677 = some (pin, none) ∧
        IsValid pin = some (true, none) :=
  ⟨by decide, generate_from_date_round_trip _ 677 (by decide)⟩

/-- C2: for every string `s` of exactly 9 ASCII digits, `getControlNumber s` is the
ASCII character of the digit `(10 − (S mod 10)) mod 10`, where `S` is the sum over
the positions 0 to 8 of the decimal digit sum of the digit times its weight (2 at
even positions, 1 at odd ones). -/
theorem getControlNumber_eq_spec (s : GoString) (h : isDigits 9 s) :
    getControlNumber s = some (48 + specCheckDigit s) := by
  obtain ⟨hlen, hd⟩ := h
  rw [getControlNumber_digits s hd]
  obtain ⟨a0, a1, a2, a3, a4, a5, a6, a7, a8, rfl⟩ := length_nine s hlen
  simp [specCheckDigit, specSum, digitAt, List.enum, List.enumFrom, List.range_succ, add_assoc]

/-- C2, at the nine digits of `19901121-8774`: the control number is `4`. -/
theorem getControlNumber_eq_spec_witness :
    isDigits 9 (lit "901121877") ∧
      getControlNumber (lit "901121877") = some (48 + specCheckDigit (lit "901121877")) ∧
      specCheckDigit (lit "901121877") = 4 :=
  ⟨by decide, getControlNumber_eq_spec _ (by decide), by decide⟩

/-- C3: `IsValid pin` returns `(true, nil)` exactly when `pin` has the format of 8
digits, a `-` or `+` and 4 digits and its last character is the control number of
`pin[2..8]` followed by `pin[9..12]`; in every other case it returns false with an
error, as it does for the three forms without century. -/
theorem IsValid_iff (pin : GoString) :
    (IsValid pin = some (true, none) ↔ hasPinFormat pin ∧ checksumHolds pin) ∧
      (IsValid pin = some (true, none) ∨ IsValid pin = some (false, some (notValidMsg pin))) ∧
      IsValid (lit "9011218774") = some (false, some (notValidMsg (lit "9011218774"))) ∧
      IsValid (lit "901121-8774") = some (false, some (notValidMsg (lit "901121-8774"))) ∧
      IsValid (lit "901121+8774") = some (false, some (notValidMsg (lit "901121+8774"))) :=
  ⟨IsValid_true_iff pin, IsValid_cases pin, by decide, by decide, by decide⟩

/-- C4: `IsMale pin` returns `(true, nil)` exactly when `IsValid pin` succeeds and
the character at index `len(pin) − 2` is an odd digit; otherwise it returns false
with an error.  It succeeds on `19901121-8774` and fails on `19131221-7324`. -/
theorem IsMale_iff (pin : GoString) :
    (IsMale pin = some (true, none) ↔ IsValid pin = some (true, none) ∧ hasOddSexDigit pin) ∧
      (IsMale pin = some (true, none) ∨ ∃ e, IsMale pin = some (false, some e)) ∧
      IsMale (lit "19901121-8774") = some (true, none) ∧
      IsMale (lit "19131221-7324")
        = some (false, some (lit "19131221-7324 is not a valid male personal identity number")) := by
  refine ⟨?_, ?_, by decide, by decide⟩
  · by_cases hv : IsValid pin = some (true, none)
    · rw [IsMale_of_valid pin hv]
      by_cases hodd : hasOddSexDigit pin <;> simp [hodd, hv]
    · rw [IsMale_of_invalid pin hv]
      simp [hv]
  · by_cases hv : IsValid pin = some (true, none)
    · rw [IsMale_of_valid pin hv]
      by_cases hodd : hasOddSexDigit pin <;> simp [hodd]
    · rw [IsMale_of_invalid pin hv]
      simp

/-- C5: on every pin that `IsValid` accepts, exactly one of `IsMale` and `IsFemale`
returns `(true, nil)` and the other returns false with an error. -/
theorem male_xor_female (pin : GoString) (h : IsValid pin = some (true, none)) :
    (IsMale pin = some (true, none) ∧ ∃ e, IsFemale pin = some (false, some e)) ∨
      (IsFemale pin = some (true, none) ∧ ∃ e, IsMale pin = some (false, some e)) := by
  rw [IsMale_of_valid pin h, IsFemale_of_valid pin h]
  by_cases hodd : hasOddSexDigit pin <;> simp [hodd]

/-- C5, at `19131221-7324`: a valid pin on which `IsFemale` succeeds and `IsMale`
fails. -/
theorem male_xor_female_witness :
    IsValid (lit "19131221-7324") = some (true, none) ∧
      ((IsMale (lit "19131221-7324") = some (true, none) ∧
          ∃ e, IsFemale (lit "19131221-7324") = some (false, some e)) ∨
        (IsFemale (lit "19131221-7324") = some (true, none) ∧
          ∃ e, IsMale (lit "19131221-7324") = some (false, some e))) :=
  ⟨by decide, male_xor_female _ (by decide)⟩

/-- C6: when `IsValid pin` fails with an error of message `e`, both `IsMale pin` and
`IsFemale pin` return false with an error of the same message `e`. -/
theorem invalid_error_propagates (pin : GoString) (b : Bool) (e : GoString)
    (h : IsValid pin = some (b, some e)) :
    IsMale pin = some (false, some e) ∧ IsFemale pin = some (false, some e) := by
  have hv : IsValid pin ≠ some (true, none) := by rw [h]; simp
  have h2 := (IsValid_cases pin).resolve_left hv
  rw [h2] at h
  have he : notValidMsg pin = e := (by simpa using h : b = false ∧ notValidMsg pin = e).2
  rw [IsMale_of_invalid pin hv, IsFemale_of_invalid pin hv, he]
  exact ⟨rfl, rfl⟩

/-- C6, at `901121-8774`, which `IsValid` rejects. -/
theorem invalid_error_propagates_witness :
    IsValid (lit "901121-8774") = some (false, some (notValidMsg (lit "901121-8774"))) ∧
      IsMale (lit "901121-8774") = some (false, some (notValidMsg (lit "901121-8774"))) ∧
      IsFemale (lit "901121-8774") = some (false, some (notValidMsg (lit "901121-8774"))) :=
  ⟨by decide, invalid_error_propagates _ false _ (by decide)⟩

/-- C7: `GenerateFromDate` always returns; it returns an error exactly when the date
is not a string of 8 ASCII digits, and the string returned with an error is empty. -/
theorem GenerateFromDate_error_iff (date : GoString) (raw : Nat) :
    (∃ res, GenerateFromDate date raw = some res) ∧
      ((∃ s e, GenerateFromDate date raw = some (s, some e)) ↔ ¬ isDigits 8 date) ∧
      (∀ s e, GenerateFromDate date raw = some (s, some e) → s = []) := by
  by_cases h : isDigits 8 date
  · obtain ⟨cn, _, _, hgen⟩ := GenerateFromDate_of_date date raw h
    rw [hgen]
    simp [h]
  · rw [GenerateFromDate_of_not_date date raw h]
    simp [h]

/-- C8: on a date `d` of 8 digits the result has 13 characters: `d`, a hyphen, the
three decimal digits of the serial drawn, and the control number of `d[2..8]`
followed by those three digits. -/
theorem GenerateFromDate_shape (d : GoString) (raw : Nat) (h : isDigits 8 d) :
    ∃ (k : Nat) (pin : GoString),
      rndNumber 100 999 raw = some (k : Int) ∧ 100 ≤ k ∧ k < 1000 ∧
      GenerateFromDate d raw = some (pin, none) ∧
      pin.length = 13 ∧ pin.take 8 = d ∧ pin.get? 8 = some 45 ∧
      (pin.drop 9).take 3 = [48 + k / 100, 48 + k / 10 % 10, 48 + k % 10] ∧
      getControlNumber (d.drop 2 ++ (pin.drop 9).take 3) = pin.get? 12 := by
  obtain ⟨cn, _, hg, hgen⟩ := GenerateFromDate_of_date d raw h
  have hk := Itoa_serial (raw % 899 + 100) (by omega) (by omega)
  rw [hk] at hg hgen
  refine ⟨raw % 899 + 100, _, rndNumber_serial raw, by omega, by omega, hgen, ?_⟩
  obtain ⟨hlen, _⟩ := h
  obtain ⟨a0, a1, a2, a3, a4, a5, a6, a7, rfl⟩ := length_eight d hlen
  refine ⟨by simp, by simp, by simp, by simp, ?_⟩
  simpa using hg

/-- C8, at the date `19840707` of the test suite. -/
theorem GenerateFromDate_shape_witness :
    isDigits 8 (lit "19840707") ∧
      ∃ (k : Nat) (pin : GoString),
        rndNumber 100 999 23 = some (k : Int) ∧ 100 ≤ k ∧ k < 1000 ∧
        GenerateFromDate (lit "19840707") 23 = some (pin, none) ∧
        pin.length = 13 ∧ pin.take 8 = lit "19840707" ∧ pin.get? 8 = some 45 ∧
        (pin.drop 9).take 3 = [48 + k / 100, 48 + k / 10 % 10, 48 + k % 10] ∧
        getControlNumber ((lit "19840707").drop 2 ++ (pin.drop 9).take 3) = pin.get? 12 :=
  ⟨by decide, GenerateFromDate_shape _ 23 (by decide)⟩

/-- C9: the serials that `rndNumber(100, 999)` can return are exactly the integers
from 100 through 998; the value 999 is never drawn. -/
theorem rndNumber_range (v : Int) :
    (∃ raw, rndNumber 100 999 raw = some v) ↔ 100 ≤ v ∧ v ≤ 998 := by
  constructor
  · rintro ⟨raw, h⟩
    rw [rndNumber_serial] at h
    have hv : ((raw % 899 + 100 : Nat) : Int) = v := by simpa using h
    omega
  · rintro ⟨h1, h2⟩
    refine ⟨(v - 100).toNat, ?_⟩
    rw [rndNumber_serial]
    have : ((v - 100).toNat % 899 + 100 : Nat) = v := by omega
    rw [this]

/-- C10, as stated, fails once the clock has passed the year 9999: the date drawn
has a year of five digits and `GenerateFromDate` rejects it. -/
theorem Generate_year_10000 :
    Generate 253402300801 (fun _ => 0) 253402300800 0
      = some ([], some (lit "100000101 is not a valid date, expects format YYYYMMDD")) := by
  decide

/-- C10, amended: for every current time later than 1970-01-01 and not later than
9999-12-31T00:00:00Z, a local zone within 24 hours of UTC and every outcome of the
random draws, `Generate` returns no error and a pin that `IsValid` accepts. -/
theorem Generate_valid (now : Int) (zone : Int → Int) (rawDate rawSerial : Nat)
    (h0 : 0 < now) (h1 : now ≤ 253402214400) (hz : ∀ t, -86400 ≤ zone t ∧ zone t ≤ 86400) :
    ∃ pin, Generate now zone rawDate rawSerial = some (pin, none) ∧
      IsValid pin = some (true, none) :=
  Generate_of_bounds now zone rawDate rawSerial h0 h1 hz

/-- C10, at 2025-11-04T00:00:00Z in a zone one hour east of UTC. -/
theorem Generate_valid_witness :
    (0 : Int) < 1762214400 ∧ (1762214400 : Int) ≤ 253402214400 ∧
      ∃ pin, Generate 1762214400 (fun _ => 3600) 12345678901 5 = some (pin, none) ∧
        IsValid pin = some (true, none) :=
  ⟨by decide, by decide,
    Generate_valid 1762214400 (fun _ => 3600) 12345678901 5 (by decide) (by decide)
      (fun _ => (by decide : (-86400 : Int) ≤ 3600 ∧ (3600 : Int) ≤ 86400))⟩

/-- C11: for every 8-digit `d` and 4-digit `r`, both `d-r` and `d+r` have the
accepted format, and `IsValid` succeeds on the one exactly when it succeeds on the
other: the separator takes no part in the checksum.  `19901121-8774` and
`19901121+8774` are both valid. -/
theorem separator_invariance (d r : GoString) (hd : isDigits 8 d) (hr : isDigits 4 r) :
    hasPinFormat (d ++ lit "-" ++ r) ∧ hasPinFormat (d ++ lit "+" ++ r) ∧
      (IsValid (d ++ lit "-" ++ r) = some (true, none)
        ↔ IsValid (d ++ lit "+" ++ r) = some (true, none)) ∧
      IsValid (lit "19901121-8774") = some (true, none) ∧
      IsValid (lit "19901121+8774") = some (true, none) := by
  have e1 : lit "-" = [45] := by decide
  have e2 : lit "+" = [43] := by decide
  rw [e1, e2]
  have f1 := hasPinFormat_assembled d r 45 hd hr (Or.inl rfl)
  have f2 := hasPinFormat_assembled d r 43 hd hr (Or.inr rfl)
  refine ⟨f1, f2, ?_, by decide, by decide⟩
  rw [IsValid_true_iff, IsValid_true_iff, checksumHolds_assembled d r 45 hd.1 hr.1,
    checksumHolds_assembled d r 43 hd.1 hr.1]
  tauto

/-- C11, at the date `19901121` and the four digits `8774`. -/
theorem separator_invariance_witness :
    isDigits 8 (lit "19901121") ∧ isDigits 4 (lit "8774") ∧
      (IsValid (lit "19901121" ++ lit "-" ++ lit "8774") = some (true, none)
        ↔ IsValid (lit "19901121" ++ lit "+" ++ lit "8774") = some (true, none)) :=
  ⟨by decide, by decide, (separator_invariance _ _ (by decide) (by decide)).2.2.1⟩

/-- C12: on a pin of the 13-character format, replacing the first two characters by
any two ASCII digits leaves what `IsValid`, `IsMale` and `IsFemale` report (the
boolean, and whether an error is returned) unchanged. -/
theorem century_independence (pin : GoString) (a b : Nat) (hf : hasPinFormat pin)
    (ha : isDigit a = true) (hb : isDigit b = true) :
    outcome (IsValid (withCentury a b pin)) = outcome (IsValid pin) ∧
      outcome (IsMale (withCentury a b pin)) = outcome (IsMale pin) ∧
      outcome (IsFemale (withCentury a b pin)) = outcome (IsFemale pin) := by
  have hv := IsValid_withCentury pin a b hf ha hb
  have ho := hasOddSexDigit_withCentury pin a b hf.1
  refine ⟨?_, ?_, ?_⟩
  · rw [outcome_IsValid, outcome_IsValid]
    simp only [hv]
  · rw [outcome_IsMale, outcome_IsMale]
    simp only [hv, ho]
  · rw [outcome_IsFemale, outcome_IsFemale]
    simp only [hv, ho]

/-- C12, at `19901121-8774` with the century `19` replaced by `07`. -/
theorem century_independence_witness :
    hasPinFormat (lit "19901121-8774") ∧
      withCentury 48 55 (lit "19901121-8774") = lit "07901121-8774" ∧
      outcome (IsValid (lit "07901121-8774")) = some (true, false) ∧
      outcome (IsValid (withCentury 48 55 (lit "19901121-8774")))
        = outcome (IsValid (lit "19901121-8774")) :=
  ⟨by decide, by decide, by decide,
    (century_independence _ 48 55 (by decide) (by decide) (by decide)).1⟩

/-- C13: whenever `GenerateFromDate`, `IsValid`, `IsMale` or `IsFemale` returns an
error on the input `x`, the message of the error begins with `x`. -/
theorem error_message_begins_with_input (x : GoString) (raw : Nat) (s : GoString)
    (v : Bool) (e : GoString) :
    (GenerateFromDate x raw = some (s, some e) → x <+: e) ∧
      (IsValid x = some (v, some e) → x <+: e) ∧
      (IsMale x = some (v, some e) → x <+: e) ∧
      (IsFemale x = some (v, some e) → x <+: e) := by
  refine ⟨?_, ?_, ?_, ?_⟩
  · intro h
    by_cases hd : isDigits 8 x
    · obtain ⟨cn, _, _, hgen⟩ := GenerateFromDate_of_date x raw hd
      rw [hgen] at h
      simp at h
    · rw [GenerateFromDate_of_not_date x raw hd] at h
      have he : x ++ lit " is not a valid date, expects format YYYYMMDD" = e :=
        (by simpa using h : [] = s ∧ _).2
      rw [← he]
      exact List.prefix_append _ _
  · intro h
    rcases IsValid_cases x with hv | hv
    · rw [hv] at h; simp at h
    · rw [hv] at h
      have he : notValidMsg x = e := (by simpa using h : false = v ∧ _).2
      rw [← he]
      exact List.prefix_append _ _
  · intro h
    by_cases hv : IsValid x = some (true, none)
    · rw [IsMale_of_valid x hv] at h
      by_cases hodd : hasOddSexDigit x
      · simp [hodd] at h
      · have he : x ++ lit " is not a valid male personal identity number" = e :=
          (by simpa [hodd] using h : false = v ∧ _).2
        rw [← he]
        exact List.prefix_append _ _
    · rw [IsMale_of_invalid x hv] at h
      have he : notValidMsg x = e := (by simpa using h : false = v ∧ _).2
      rw [← he]
      exact List.prefix_append _ _
  · intro h
    by_cases hv : IsValid x = some (true, none)
    · rw [IsFemale_of_valid x hv] at h
      by_cases hodd : hasOddSexDigit x
      · have he : x ++ lit " is not a valid female personal identity number" = e :=
          (by simpa [hodd] using h : false = v ∧ _).2
        rw [← he]
        exact List.prefix_append _ _
      · simp [hodd] at h
    · rw [IsFemale_of_invalid x hv] at h
      have he : notValidMsg x = e := (by simpa using h : false = v ∧ _).2
      rw [← he]
      exact List.prefix_append _ _

/-- C13, at inputs on which each of the four operations fails. -/
theorem error_message_begins_with_input_witness :
    GenerateFromDate (lit "1990") 0
        = some ([], some (lit "1990" ++ lit " is not a valid date, expects format YYYYMMDD")) ∧
      IsValid (lit "901121-8774")
        = some (false, some (lit "901121-8774" ++ lit " is not a valid personal identity number")) ∧
      IsMale (lit "19131221-7324")
        = some (false, some (lit "19131221-7324"
            ++ lit " is not a valid male personal identity number")) ∧
      IsFemale (lit "19901121-8774")
        = some (false, some (lit "19901121-8774"
            ++ lit " is not a valid female personal identity number")) ∧
      lit "901121-8774" <+: lit "901121-8774" ++ lit " is not a valid personal identity number" :=
  ⟨by decide, by decide, by decide, by decide,
    (error_message_begins_with_input (lit "901121-8774") 0 [] false _).2.1 (by decide)⟩

/-- C14: for every string `s` of 9 ASCII digits, `s` followed by its control number
passes the standard Luhn check: doubling every second digit counted from the right,
starting next to the check digit, replacing each doubled value by its digit sum and
adding the ten values gives a total divisible by 10. -/
theorem control_number_passes_luhn (s : GoString) (h : isDigits 9 s) :
    ∃ c, getControlNumber s = some c ∧ passesLuhn (s ++ [c]) := by
  obtain ⟨hlen, hd⟩ := h
  refine ⟨_, getControlNumber_digits s hd, ?_⟩
  obtain ⟨a0, a1, a2, a3, a4, a5, a6, a7, a8, rfl⟩ := length_nine s hlen
  have s1 := (digitSum_small (a1 - 48) (by have := (isDigit_iff a1).mp (hd a1 (by simp)); omega)).2
  have s3 := (digitSum_small (a3 - 48) (by have := (isDigit_iff a3).mp (hd a3 (by simp)); omega)).2
  have s5 := (digitSum_small (a5 - 48) (by have := (isDigit_iff a5).mp (hd a5 (by simp)); omega)).2
  have s7 := (digitSum_small (a7 - 48) (by have := (isDigit_iff a7).mp (hd a7 (by simp)); omega)).2
  simp only [Nat.mul_one] at s1 s3 s5 s7
  simp [passesLuhn, luhnTotal, List.enum, List.enumFrom, weight, s1, s3, s5, s7]
  omega

/-- C14, at the nine digits of `19901121-8774`: with the control number `4` the ten
digits pass the Luhn check. -/
theorem control_number_passes_luhn_witness :
    isDigits 9 (lit "901121877") ∧ passesLuhn (lit "9011218774") ∧
      ∃ c, getControlNumber (lit "901121877") = some c ∧ passesLuhn (lit "901121877" ++ [c]) :=
  ⟨by decide, by decide, control_number_passes_luhn _ (by decide)⟩

/-- C15: on every string the value `(10 − (sum mod 10)) mod 10` lies in 0..9, its
decimal rendering is one character, and `getControlNumber` returns (it does not
fail) one of the bytes `0` to `9`; a character that is not an ASCII digit adds
nothing to the sum. -/
theorem getControlNumber_single_digit (s : GoString) :
    0 ≤ (10 - (controlSum s).tmod 10).tmod 10 ∧ (10 - (controlSum s).tmod 10).tmod 10 ≤ 9 ∧
      (Itoa ((10 - (controlSum s).tmod 10).tmod 10)).length = 1 ∧
      (∃ c, getControlNumber s = some c ∧ isDigit c = true) ∧
      (∀ (sum : Int) (i r : Nat), isDigit r = false → controlStep sum (i, r) = sum) := by
  obtain ⟨n, hn⟩ := controlSum_nat s
  have hv := check_value n
  have hlt : (10 - n % 10) % 10 < 10 := Nat.mod_lt _ (by decide)
  rw [hn, hv]
  refine ⟨by omega, by omega, ?_, getControlNumber_total s, controlStep_nondigit⟩
  have hneg : ¬ ((((10 - n % 10) % 10 : Nat) : Int) < 0) := by omega
  unfold Itoa
  rw [if_neg hneg, Int.toNat_ofNat, decimal_one _ hlt]
  rfl

/-- C16: with the clock after 1970-01-01, the timestamp that `rndDate` chooses and
formats lies between 0, the UNIX time of 1970-01-01T00:00:00Z, and the current
UNIX time. -/
theorem rndDate_moment (now : Int) (zone : Int → Int) (raw : Nat) (h : 0 < now) :
    ∃ sec, rndDateSec now raw = some sec ∧ 0 ≤ sec ∧ sec ≤ now ∧
      rndDate now zone raw = some (formatDate sec (zone sec)) := by
  have hn : ¬ (now ≤ 0) := by omega
  have hr0 : 0 ≤ (raw : Int) % now := Int.emod_nonneg _ (by omega)
  have hr1 : (raw : Int) % now < now := Int.emod_lt_of_pos _ h
  refine ⟨(raw : Int) % now + 0, ?_, by omega, by omega, ?_⟩
  · simp [rndDateSec, Int63n, hn]
  · simp [rndDate, Int63n, hn]

/-- C16, on 2025-11-04: the sample 12345678901 gives a moment in 1970. -/
theorem rndDate_moment_witness :
    (0 : Int) < 1762214400 ∧ rndDateSec 1762214400 12345678901 = some 10178101 ∧
      ∃ sec, rndDateSec 1762214400 12345678901 = some sec ∧ 0 ≤ sec ∧ sec ≤ 1762214400 ∧
        rndDate 1762214400 (fun _ => 0) 12345678901 = some (formatDate sec 0) :=
  ⟨by decide, by decide, rndDate_moment 1762214400 (fun _ => 0) 12345678901 (by decide)⟩

/-- C17: at every position 0 to 8 there are a 9-digit string and a different digit
for that position such that replacing the digit changes the control number. -/
theorem checksum_sensitivity (i : Nat) (hi : i < 9) :
    ∃ (s : GoString) (x : Nat), isDigits 9 s ∧ isDigit x = true ∧ x ≠ s.getD i 0 ∧
      getControlNumber (s.set i x) ≠ getControlNumber s := by
  have h0 : isDigits 9 (lit "000000000") := by decide
  have hx : isDigit 49 = true := by decide
  have hne : (49 : Nat) ≠ (lit "000000000").getD i 0 := by
    interval_cases i <;> decide
  exact ⟨lit "000000000", 49, h0, hx, hne,
    getControlNumber_set_ne _ i 49 h0.2 (by rw [h0.1]; exact hi) hx hne⟩

/-- C17, at the position 4. -/
theorem checksum_sensitivity_witness :
    (4 : Nat) < 9 ∧ getControlNumber (lit "000010000") = some 56 ∧
      getControlNumber (lit "000000000") = some 48 ∧
      ∃ (s : GoString) (x : Nat), isDigits 9 s ∧ isDigit x = true ∧ x ≠ s.getD 4 0 ∧
        getControlNumber (s.set 4 x) ≠ getControlNumber s :=
  ⟨by decide, by decide, by decide, checksum_sensitivity 4 (by decide)⟩

/-- C18: on a pin that `IsValid` accepts, replacing any one of the ten digits that
enter the checksum (indices 2 to 7 and 9 to 12) by a different ASCII digit gives a
pin that `IsValid` rejects. -/
theorem single_digit_error_detected (pin : GoString) (i x : Nat)
    (hv : IsValid pin = some (true, none))
    (hi : (2 ≤ i ∧ i ≤ 7) ∨ (9 ≤ i ∧ i ≤ 12)) (hx : isDigit x = true)
    (hne : x ≠ pin.getD i 0) :
    IsValid (pin.set i x) = some (false, some (notValidMsg (pin.set i x))) := by
  obtain ⟨hf, hc⟩ := (IsValid_true_iff pin).mp hv
  have hf2 : hasPinFormat (pin.set i x) := hasPinFormat_set pin i x hf (by omega) hx
  rw [IsValid_of_format _ hf2]
  suffices hnc : ¬ checksumHolds (pin.set i x) by rw [if_neg hnc]
  obtain ⟨hlen, h1, _, h3⟩ := hf
  obtain ⟨a0, a1, a2, a3, a4, a5, a6, a7, a8, a9, a10, a11, a12, rfl⟩ := length_thirteen pin hlen
  have hd : ∀ b ∈ [a2, a3, a4, a5, a6, a7, a9, a10, a11], isDigit b = true := by
    have e2 := h1 2 (by decide)
    have e3 := h1 3 (by decide)
    have e4 := h1 4 (by decide)
    have e5 := h1 5 (by decide)
    have e6 := h1 6 (by decide)
    have e7 := h1 7 (by decide)
    have e9 := h3 0 (by decide)
    have e10 := h3 1 (by decide)
    have e11 := h3 2 (by decide)
    simp at e2 e3 e4 e5 e6 e7 e9 e10 e11
    simp [*]
  have hc2 : getControlNumber [a2, a3, a4, a5, a6, a7, a9, a10, a11] = some a12 := by
    simpa [checksumHolds] using hc
  have key : ∀ j, j < 9 → x ≠ ([a2, a3, a4, a5, a6, a7, a9, a10, a11] : GoString).getD j 0 →
      getControlNumber (([a2, a3, a4, a5, a6, a7, a9, a10, a11] : GoString).set j x)
        ≠ some a12 := by
    intro j hj hxj
    rw [← hc2]
    exact getControlNumber_set_ne _ j x hd (by simpa using hj) hx hxj
  have hi2 : i = 2 ∨ i = 3 ∨ i = 4 ∨ i = 5 ∨ i = 6 ∨ i = 7 ∨ i = 9 ∨ i = 10 ∨ i = 11 ∨ i = 12 := by
    omega
  rcases hi2 with rfl | rfl | rfl | rfl | rfl | rfl | rfl | rfl | rfl | rfl
  · simpa [checksumHolds] using key 0 (by decide) (by simpa using hne)
  · simpa [checksumHolds] using key 1 (by decide) (by simpa using hne)
  · simpa [checksumHolds] using key 2 (by decide) (by simpa using hne)
  · simpa [checksumHolds] using key 3 (by decide) (by simpa using hne)
  · simpa [checksumHolds] using key 4 (by decide) (by simpa using hne)
  · simpa [checksumHolds] using key 5 (by decide) (by simpa using hne)
  · simpa [checksumHolds] using key 6 (by decide) (by simpa using hne)
  · simpa [checksumHolds] using key 7 (by decide) (by simpa using hne)
  · simpa [checksumHolds] using key 8 (by decide) (by simpa using hne)
  · have hx12 : ¬ (a12 = x) := fun e => hne (by simpa using e.symm)
    simpa [checksumHolds, hc2] using hx12

/-- C18, at `19901121-8774` with the day digit at index 7 changed from 1 to 2. -/
theorem single_digit_error_detected_witness :
    IsValid (lit "19901121-8774") = some (true, none) ∧
      (lit "19901121-8774").set 7 50 = lit "19901122-8774" ∧
      IsValid ((lit "19901121-8774").set 7 50)
        = some (false, some (notValidMsg ((lit "19901121-8774").set 7 50))) :=
  ⟨by decide, by decide,
    single_digit_error_detected _ 7 50 (by decide) (by decide) (by decide) (by decide)⟩

/-- C19: in a string of 9 ASCII digits, exchanging two different neighbouring
digits changes the control number exactly when the two digits are not 0 and 9. -/
theorem adjacent_transposition (s : GoString) (i : Nat) (hs : isDigits 9 s) (hi : i < 8)
    (hne : s.getD i 0 ≠ s.getD (i + 1) 0) :
    getControlNumber (swapAdjacent s i) ≠ getControlNumber s
      ↔ ¬ ((s.getD i 0 = 48 ∧ s.getD (i + 1) 0 = 57) ∨
          (s.getD i 0 = 57 ∧ s.getD (i + 1) 0 = 48)) :=
  getControlNumber_swap s i hs.2 (by rw [hs.1]; omega) hne

/-- C19, at the digits `901121877`: exchanging the leading 9 and 0 keeps the control
number 4, exchanging the 2 and 1 at positions 4 and 5 changes it. -/
theorem adjacent_transposition_witness :
    swapAdjacent (lit "901121877") 0 = lit "091121877" ∧
      getControlNumber (lit "091121877") = getControlNumber (lit "901121877") ∧
      swapAdjacent (lit "901121877") 4 = lit "901112877" ∧
      getControlNumber (lit "901112877") = some 53 ∧
      (getControlNumber (swapAdjacent (lit "901121877") 4) ≠ getControlNumber (lit "901121877")
        ↔ ¬ (((lit "901121877").getD 4 0 = 48 ∧ (lit "901121877").getD (4 + 1) 0 = 57) ∨
            ((lit "901121877").getD 4 0 = 57 ∧ (lit "901121877").getD (4 + 1) 0 = 48))) :=
  ⟨by decide, by decide, by decide, by decide,
    adjacent_transposition _ 4 (by decide) (by decide) (by decide)⟩

/-- C20: on every input string `IsValid`, `IsMale`, `IsFemale` and `GenerateFromDate`
return a result, no slice or index being out of range: once the pattern of the pin
has matched, `pin[2:]`, `c[:6]`, `c[7:]`, `c[:9]`, `c[9]` and `pin[len(pin)-2]` are
all within bounds, and once the pattern of the date has matched so is `date[2:]`. -/
theorem no_out_of_range (s : GoString) (raw : Nat) :
    (∃ r, IsValid s = some r) ∧ (∃ r, IsMale s = some r) ∧ (∃ r, IsFemale s = some r) ∧
      (∃ r, GenerateFromDate s raw = some r) ∧
      (Match validPIN s = true →
        ∃ c0 c6 c7 c9 last sx, sliceFrom s 2 = some c0 ∧ sliceTo c0 6 = some c6 ∧
          sliceFrom c0 7 = some c7 ∧ sliceTo (c6 ++ c7) 9 = some c9 ∧
          index (c6 ++ c7) 9 = some last ∧ index s ((s.length : Int) - 2) = some sx) ∧
      (Match validDate s = true → ∃ d2, sliceFrom s 2 = some d2) := by
  refine ⟨?_, ?_, ?_, ?_, ?_, ?_⟩
  · rcases IsValid_cases s with h | h <;> exact ⟨_, h⟩
  · by_cases hv : IsValid s = some (true, none)
    · rw [IsMale_of_valid s hv]
      split_ifs <;> exact ⟨_, rfl⟩
    · exact ⟨_, IsMale_of_invalid s hv⟩
  · by_cases hv : IsValid s = some (true, none)
    · rw [IsFemale_of_valid s hv]
      split_ifs <;> exact ⟨_, rfl⟩
    · exact ⟨_, IsFemale_of_invalid s hv⟩
  · by_cases hd : isDigits 8 s
    · obtain ⟨cn, _, _, hgen⟩ := GenerateFromDate_of_date s raw hd
      exact ⟨_, hgen⟩
    · exact ⟨_, GenerateFromDate_of_not_date s raw hd⟩
  · intro hm
    have hlen := Match_validPIN_length s hm
    obtain ⟨a0, a1, a2, a3, a4, a5, a6, a7, a8, a9, a10, a11, a12, rfl⟩ := length_thirteen s hlen
    simp [sliceFrom, sliceTo, index]
  · intro hm
    have hlen := Match_validDate_length s hm
    exact ⟨s.drop 2, by simp [sliceFrom, hlen]⟩

/-- C20, at the empty string, a string that is too short, one that is too long, one
with a byte that is not ASCII, and a pin of the right format. -/
theorem no_out_of_range_witness :
    IsMale [] = some (false, some (notValidMsg [])) ∧
      IsFemale (lit "1990") = some (false, some (notValidMsg (lit "1990"))) ∧
      IsValid (lit "19901121-87740") = some (false, some (notValidMsg (lit "19901121-87740"))) ∧
      IsValid (lit "1990112é-8774") = some (false, some (notValidMsg (lit "1990112é-8774"))) ∧
      GenerateFromDate [] 0
        = some ([], some (lit " is not a valid date, expects format YYYYMMDD")) ∧
      Match validPIN (lit "19901121-8774") = true ∧
      ∃ c0 c6 c7 c9 last sx, sliceFrom (lit "19901121-8774") 2 = some c0 ∧
        sliceTo c0 6 = some c6 ∧ sliceFrom c0 7 = some c7 ∧ sliceTo (c6 ++ c7) 9 = some c9 ∧
        index (c6 ++ c7) 9 = some last ∧
        index (lit "19901121-8774") (((lit "19901121-8774").length : Int) - 2) = some sx :=
  ⟨by decide, by decide, by decide, by decide, by decide, by decide,
    (no_out_of_range (lit "19901121-8774") 0).2.2.2.2.1 (by decide)⟩

end Pin
